import Mathlib

/-!
Verification of the zaw host/module boundary protocol.

Shallow embedding of:
* `src/implementations/host-typescript/src/conduit.ts` — the Conduit codec
  (cursor-based Reader/Writer with alignment rules over a byte region);
* the host-side `interop.ts` (`handleError`, `createInstance` sizing/growth,
  `createView` caching, import merging, `getInput`/`getOutput`);
* the module-side `interop.zig` (`allocateInputChannel`/`allocateOutputChannel`,
  `getInput`/`getOutput`).

Machine integers are modelled as `Nat`/`Int`; the typed-array views over the
shared buffer are modelled by byte-level little-endian access, and JS `f32`/`f64`
values are represented by their 32/64-bit patterns (the double↔float32
conversion performed by `Float32Array` is the identity on the representable
values the round-trip claims quantify over).  A thrown (catchable) JS `Error`
is modelled as an error value (`none` / a dedicated outcome constructor), which
is exactly the "recoverable condition, not a crash" contract.
-/

set_option maxRecDepth 10000

/-- `alignUp` from conduit.ts: `(x + mask) & ~mask` with `mask = bytes - 1`.
For the power-of-two byte counts used (4 and 8) and the in-range cursors of a
channel this bit trick rounds `x` up to the next multiple of `bytes`, which is
the arithmetic form used here. -/
def alignUp (x bytes : Nat) : Nat :=
  (x + (bytes - 1)) - (x + (bytes - 1)) % bytes

/-- Little-endian bytes of the low `k` bytes of `v` (a typed-array store of a
`k`-byte scalar applies ToUintN, i.e. reduces `v` modulo `256^k`). -/
def leBytes : Nat → Nat → List Nat
  | 0, _ => []
  | k + 1, v => v % 256 :: leBytes k (v / 256)

/-- Assemble little-endian bytes into a natural number (a typed-array load). -/
def fromLeBytes : List Nat → Nat
  | [] => 0
  | b :: bs => b + 256 * fromLeBytes bs

/-- Store the byte list `vs` into `s` starting at index `i`
(`TypedArray.set` / consecutive element stores). -/
def setBytes : List Nat → Nat → List Nat → List Nat
  | s, _, [] => s
  | s, i, v :: vs => setBytes (s.set i v) (i + 1) vs

/-- The `k` bytes of `s` starting at index `i` (contents of
`TypedArray.subarray(i, i + k)`). -/
def readBytes (s : List Nat) : Nat → Nat → List Nat
  | _, 0 => []
  | i, k + 1 => s.getD i 0 :: readBytes s (i + 1) k

/-- Consecutive `w`-byte little-endian encodings of the elements of `xs`
(a typed-array bulk `set` of a whole element list). -/
def leWords (w : Nat) : List Nat → List Nat
  | [] => []
  | x :: xs => leBytes w x ++ leWords w xs

/-- Read `n` consecutive `w`-byte little-endian words starting at byte `i`
(contents of a typed-array `subarray` of `n` elements). -/
def readWords (s : List Nat) : Nat → Nat → Nat → List Nat
  | _, _, 0 => []
  | i, w, n + 1 => fromLeBytes (readBytes s i w) :: readWords s (i + w) w n

/-- The bit pattern an `Int32Array` store produces from an integer
(ToInt32 reduces modulo `2^32`; the pattern is the nonnegative residue). -/
def intToUint32 (v : Int) : Nat := (v % (2 ^ 32 : Int)).toNat

/-- The integer an `Int32Array` load yields from a 32-bit pattern. -/
def uint32ToInt (w : Nat) : Int :=
  if w < 2 ^ 31 then (w : Int) else (w : Int) - 2 ^ 32

/-- `Channel` from conduit.ts: a cursor (`offset`) over a fixed byte region.
`storage` holds the bytes of the region (`storageUint8`); its length is the
channel capacity (`sizeInBytes`).  The `u32`/`i32`/`f32`/`f64` views over the
same buffer are modelled by byte-level little-endian access. -/
structure Channel where
  offset : Nat
  storage : List Nat
  deriving DecidableEq, Repr

def Channel.capacity (c : Channel) : Nat := c.storage.length

/-- `reset()` — the only way to reuse a channel for a new message. -/
def Channel.reset (c : Channel) : Channel := { c with offset := 0 }

/-- `offset8()` — 1-byte values use the raw cursor. -/
def Channel.offset8 (c : Channel) : Nat := c.offset

/-- `offset32()` — aligns the cursor to 4 (mutating it) and returns the index
into the u32 view (`offset >>> 2`) together with the mutated channel. -/
def Channel.offset32 (c : Channel) : Nat × Channel :=
  let a := alignUp c.offset 4
  (a / 4, { c with offset := a })

/-- `offset64()` — aligns the cursor to 8 (mutating it) and returns the index
into the f64 view (`offset >>> 3`) together with the mutated channel. -/
def Channel.offset64 (c : Channel) : Nat × Channel :=
  let a := alignUp c.offset 8
  (a / 8, { c with offset := a })

/-- `advance8(count)` — bounds check then cursor advance; `none` models the
thrown, catchable JS `Error('Reached end of channel')`. -/
def Channel.advance8 (c : Channel) (count : Nat) : Option Channel :=
  let next := c.offset + count
  if c.storage.length < next then none
  else some { c with offset := next }

def Channel.advance32 (c : Channel) (count : Nat) : Option Channel :=
  c.advance8 (count * 4)

def Channel.advance64 (c : Channel) (count : Nat) : Option Channel :=
  c.advance8 (count * 8)

namespace Writer

/-- `Writer.writeUint8` — raw cursor, advance by 1, store the byte. -/
def writeUint8 (c : Channel) (value : Nat) : Option Unit × Channel :=
  let offset := c.offset8
  match c.advance8 1 with
  | none => (none, c)
  | some c1 => (some (), { c1 with storage := c1.storage.set offset (value % 256) })

/-- `Writer.writeUint32` — align to 4, advance by 4, store the u32 word. -/
def writeUint32 (c : Channel) (value : Nat) : Option Unit × Channel :=
  let p := c.offset32
  match p.2.advance32 1 with
  | none => (none, p.2)
  | some c1 => (some (), { c1 with storage := setBytes c1.storage (p.1 * 4) (leBytes 4 value) })

/-- `Writer.writeInt32` — align to 4, advance by 4, store the i32 pattern. -/
def writeInt32 (c : Channel) (value : Int) : Option Unit × Channel :=
  let p := c.offset32
  match p.2.advance32 1 with
  | none => (none, p.2)
  | some c1 =>
    (some (), { c1 with storage := setBytes c1.storage (p.1 * 4) (leBytes 4 (intToUint32 value)) })

/-- `Writer.writeFloat32` — align to 4, advance by 4, store the f32 bit
pattern (`value` is the 32-bit pattern of the float). -/
def writeFloat32 (c : Channel) (value : Nat) : Option Unit × Channel :=
  let p := c.offset32
  match p.2.advance32 1 with
  | none => (none, p.2)
  | some c1 => (some (), { c1 with storage := setBytes c1.storage (p.1 * 4) (leBytes 4 value) })

/-- `Writer.writeFloat64` — align to 8, advance by 8, store the f64 bit
pattern (`value` is the 64-bit pattern of the double). -/
def writeFloat64 (c : Channel) (value : Nat) : Option Unit × Channel :=
  let p := c.offset64
  match p.2.advance64 1 with
  | none => (none, p.2)
  | some c1 => (some (), { c1 with storage := setBytes c1.storage (p.1 * 8) (leBytes 8 value) })

/-- `Writer.initUint8` — reserve one byte; the returned index is the offset the
returned setter closure captured. -/
def initUint8 (c : Channel) : Option Nat × Channel :=
  let offset := c.offset8
  match c.advance8 1 with
  | none => (none, c)
  | some c1 => (some offset, c1)

/-- `Writer.initUint32` — reserve one aligned u32 slot. -/
def initUint32 (c : Channel) : Option Nat × Channel :=
  let p := c.offset32
  match p.2.advance32 1 with
  | none => (none, p.2)
  | some c1 => (some p.1, c1)

/-- `Writer.initInt32` — reserve one aligned i32 slot. -/
def initInt32 (c : Channel) : Option Nat × Channel :=
  let p := c.offset32
  match p.2.advance32 1 with
  | none => (none, p.2)
  | some c1 => (some p.1, c1)

/-- `Writer.initFloat32` — reserve one aligned f32 slot. -/
def initFloat32 (c : Channel) : Option Nat × Channel :=
  let p := c.offset32
  match p.2.advance32 1 with
  | none => (none, p.2)
  | some c1 => (some p.1, c1)

/-- `Writer.initFloat64` — reserve one aligned f64 slot. -/
def initFloat64 (c : Channel) : Option Nat × Channel :=
  let p := c.offset64
  match p.2.advance64 1 with
  | none => (none, p.2)
  | some c1 => (some p.1, c1)

/-- `Writer.initUint8Elements(length)` — reserve `length` raw bytes and return
the start of the reserved view. -/
def initUint8Elements (c : Channel) (length : Nat) : Option Nat × Channel :=
  let start := c.offset8
  match c.advance8 length with
  | none => (none, c)
  | some c1 => (some start, c1)

/-- `Writer.initUint32Elements(length)` — reserve `length` aligned u32 slots. -/
def initUint32Elements (c : Channel) (length : Nat) : Option Nat × Channel :=
  let p := c.offset32
  match p.2.advance32 length with
  | none => (none, p.2)
  | some c1 => (some p.1, c1)

/-- `Writer.initFloat64Elements(length)` — reserve `length` aligned f64 slots. -/
def initFloat64Elements (c : Channel) (length : Nat) : Option Nat × Channel :=
  let p := c.offset64
  match p.2.advance64 length with
  | none => (none, p.2)
  | some c1 => (some p.1, c1)

/-- `Writer.copyUint8Elements(arr)` — raw cursor, advance by `arr.length`,
bulk-store the bytes (each element reduced by ToUint8). -/
def copyUint8Elements (c : Channel) (arr : List Nat) : Option Unit × Channel :=
  let start := c.offset8
  match c.advance8 arr.length with
  | none => (none, c)
  | some c1 =>
    (some (), { c1 with storage := setBytes c1.storage start (arr.map (fun x => x % 256)) })

/-- `Writer.copyUint32Elements(arr)` — align to 4, advance by `4 * arr.length`,
bulk-store the u32 words. -/
def copyUint32Elements (c : Channel) (arr : List Nat) : Option Unit × Channel :=
  let p := c.offset32
  match p.2.advance32 arr.length with
  | none => (none, p.2)
  | some c1 => (some (), { c1 with storage := setBytes c1.storage (p.1 * 4) (leWords 4 arr) })

/-- `Writer.copyInt32Elements(arr)` — align to 4, advance by `4 * arr.length`,
bulk-store the i32 patterns. -/
def copyInt32Elements (c : Channel) (arr : List Int) : Option Unit × Channel :=
  let p := c.offset32
  match p.2.advance32 arr.length with
  | none => (none, p.2)
  | some c1 =>
    (some (), { c1 with storage := setBytes c1.storage (p.1 * 4) (leWords 4 (arr.map intToUint32)) })

/-- `Writer.copyFloat32Elements(arr)` — align to 4, advance by `4 * arr.length`,
bulk-store the f32 bit patterns. -/
def copyFloat32Elements (c : Channel) (arr : List Nat) : Option Unit × Channel :=
  let p := c.offset32
  match p.2.advance32 arr.length with
  | none => (none, p.2)
  | some c1 => (some (), { c1 with storage := setBytes c1.storage (p.1 * 4) (leWords 4 arr) })

/-- `Writer.copyFloat64Elements(arr)` — align to 8, advance by `8 * arr.length`,
bulk-store the f64 bit patterns. -/
def copyFloat64Elements (c : Channel) (arr : List Nat) : Option Unit × Channel :=
  let p := c.offset64
  match p.2.advance64 arr.length with
  | none => (none, p.2)
  | some c1 => (some (), { c1 with storage := setBytes c1.storage (p.1 * 8) (leWords 8 arr) })

/-- `Writer.copyUint8Array(arr)` — u32 length then the elements. -/
def copyUint8Array (c : Channel) (arr : List Nat) : Option Unit × Channel :=
  match writeUint32 c arr.length with
  | (none, c1) => (none, c1)
  | (some _, c1) => copyUint8Elements c1 arr

/-- `Writer.copyUint32Array(arr)` — u32 length then the elements. -/
def copyUint32Array (c : Channel) (arr : List Nat) : Option Unit × Channel :=
  match writeUint32 c arr.length with
  | (none, c1) => (none, c1)
  | (some _, c1) => copyUint32Elements c1 arr

/-- `Writer.copyInt32Array(arr)` — u32 length then the elements. -/
def copyInt32Array (c : Channel) (arr : List Int) : Option Unit × Channel :=
  match writeUint32 c arr.length with
  | (none, c1) => (none, c1)
  | (some _, c1) => copyInt32Elements c1 arr

/-- `Writer.copyFloat32Array(arr)` — u32 length then the elements. -/
def copyFloat32Array (c : Channel) (arr : List Nat) : Option Unit × Channel :=
  match writeUint32 c arr.length with
  | (none, c1) => (none, c1)
  | (some _, c1) => copyFloat32Elements c1 arr

/-- `Writer.copyFloat64Array(arr)` — u32 length then the elements. -/
def copyFloat64Array (c : Channel) (arr : List Nat) : Option Unit × Channel :=
  match writeUint32 c arr.length with
  | (none, c1) => (none, c1)
  | (some _, c1) => copyFloat64Elements c1 arr

end Writer

namespace Reader

/-- `Reader.readUint8` — raw cursor, advance by 1, load the byte. -/
def readUint8 (c : Channel) : Option Nat × Channel :=
  let offset := c.offset8
  match c.advance8 1 with
  | none => (none, c)
  | some c1 => (some (c1.storage.getD offset 0), c1)

/-- `Reader.readUint32` — align to 4, advance by 4, load the u32 word. -/
def readUint32 (c : Channel) : Option Nat × Channel :=
  let p := c.offset32
  match p.2.advance32 1 with
  | none => (none, p.2)
  | some c1 => (some (fromLeBytes (readBytes c1.storage (p.1 * 4) 4)), c1)

/-- `Reader.readInt32` — align to 4, advance by 4, load the i32 value. -/
def readInt32 (c : Channel) : Option Int × Channel :=
  let p := c.offset32
  match p.2.advance32 1 with
  | none => (none, p.2)
  | some c1 => (some (uint32ToInt (fromLeBytes (readBytes c1.storage (p.1 * 4) 4))), c1)

/-- `Reader.readFloat32` — align to 4, advance by 4, load the f32 bit pattern. -/
def readFloat32 (c : Channel) : Option Nat × Channel :=
  let p := c.offset32
  match p.2.advance32 1 with
  | none => (none, p.2)
  | some c1 => (some (fromLeBytes (readBytes c1.storage (p.1 * 4) 4)), c1)

/-- `Reader.readFloat64` — align to 8, advance by 8, load the f64 bit pattern. -/
def readFloat64 (c : Channel) : Option Nat × Channel :=
  let p := c.offset64
  match p.2.advance64 1 with
  | none => (none, p.2)
  | some c1 => (some (fromLeBytes (readBytes c1.storage (p.1 * 8) 8)), c1)

/-- `Reader.readUint8Elements(length)` — raw cursor, advance by `length`,
return the bytes of the zero-copy view. -/
def readUint8Elements (c : Channel) (length : Nat) : Option (List Nat) × Channel :=
  let start := c.offset8
  match c.advance8 length with
  | none => (none, c)
  | some c1 => (some (readBytes c1.storage start length), c1)

/-- `Reader.readUint32Elements(length)` — align to 4, advance by `4 * length`,
return the u32 words of the view. -/
def readUint32Elements (c : Channel) (length : Nat) : Option (List Nat) × Channel :=
  let p := c.offset32
  match p.2.advance32 length with
  | none => (none, p.2)
  | some c1 => (some (readWords c1.storage (p.1 * 4) 4 length), c1)

/-- `Reader.readInt32Elements(length)` — align to 4, advance by `4 * length`,
return the i32 values of the view. -/
def readInt32Elements (c : Channel) (length : Nat) : Option (List Int) × Channel :=
  let p := c.offset32
  match p.2.advance32 length with
  | none => (none, p.2)
  | some c1 => (some ((readWords c1.storage (p.1 * 4) 4 length).map uint32ToInt), c1)

/-- `Reader.readFloat32Elements(length)` — align to 4, advance by `4 * length`,
return the f32 bit patterns of the view. -/
def readFloat32Elements (c : Channel) (length : Nat) : Option (List Nat) × Channel :=
  let p := c.offset32
  match p.2.advance32 length with
  | none => (none, p.2)
  | some c1 => (some (readWords c1.storage (p.1 * 4) 4 length), c1)

/-- `Reader.readFloat64Elements(length)` — align to 8, advance by `8 * length`,
return the f64 bit patterns of the view. -/
def readFloat64Elements (c : Channel) (length : Nat) : Option (List Nat) × Channel :=
  let p := c.offset64
  match p.2.advance64 length with
  | none => (none, p.2)
  | some c1 => (some (readWords c1.storage (p.1 * 8) 8 length), c1)

/-- `Reader.readUint8Array()` — u32 length prefixed byte array. -/
def readUint8Array (c : Channel) : Option (List Nat) × Channel :=
  match readUint32 c with
  | (none, c1) => (none, c1)
  | (some length, c1) => readUint8Elements c1 length

/-- `Reader.readUint32Array()` — u32 length prefixed u32 array. -/
def readUint32Array (c : Channel) : Option (List Nat) × Channel :=
  match readUint32 c with
  | (none, c1) => (none, c1)
  | (some length, c1) => readUint32Elements c1 length

/-- `Reader.readInt32Array()` — u32 length prefixed i32 array. -/
def readInt32Array (c : Channel) : Option (List Int) × Channel :=
  match readUint32 c with
  | (none, c1) => (none, c1)
  | (some length, c1) => readInt32Elements c1 length

/-- `Reader.readFloat32Array()` — u32 length prefixed f32 array. -/
def readFloat32Array (c : Channel) : Option (List Nat) × Channel :=
  match readUint32 c with
  | (none, c1) => (none, c1)
  | (some length, c1) => readFloat32Elements c1 length

/-- `Reader.readFloat64Array()` — u32 length prefixed f64 array. -/
def readFloat64Array (c : Channel) : Option (List Nat) × Channel :=
  match readUint32 c with
  | (none, c1) => (none, c1)
  | (some length, c1) => readFloat64Elements c1 length

end Reader

/-- Message bytes of the fixed log/error side-channel buffers: the bytes before
the first null terminator, or the entire buffer when no terminator occurs
(interop.ts `hostLog` / `throwWasmError`: `indexOf(0)`, whole buffer on `-1`). -/
def bufferMessageBytes (buf : List Nat) : List Nat :=
  buf.takeWhile (fun b => b != 0)

/-- The single outcome of a `handleError(rawCall)` invocation. -/
inductive HandleOutcome (ε : Type) where
  | success
  | bufferMessage (msg : List Nat)
  | unknownError
  | hostException (e : ε)
  deriving DecidableEq, Repr

/-- `throwWasmError(e?)` from interop.ts: a non-empty error buffer wins; an
empty buffer re-raises the captured exception when present, else raises the
generic unknown-error condition. -/
def throwWasmError {ε : Type} (errBuf : List Nat) (e : Option ε) : HandleOutcome ε :=
  let msg := bufferMessageBytes errBuf
  if 0 < msg.length then .bufferMessage msg
  else
    match e with
    | some ex => .hostException ex
    | none => .unknownError

/-- `handleError(func)` from interop.ts.  `rawCall` is the boundary call: it
either returns a status code (`Except.ok`) or raises a host exception
(`Except.error`).  `errBuf` is the content of the error buffer when it is read
(after the call). -/
def handleError {ε : Type} (errBuf : List Nat) (rawCall : Except ε Int) : HandleOutcome ε :=
  match rawCall with
  | .error e => throwWasmError errBuf (some e)
  | .ok result => if result ≠ 0 then throwWasmError errBuf none else .success

/-- The precedence exactly as claim C1 words it: a non-empty buffer message
wins over everything (including a zero return code); then a non-zero return
code; then a captured exception; else success. -/
def handleErrorClaimed {ε : Type} (errBuf : List Nat) (rawCall : Except ε Int) :
    HandleOutcome ε :=
  let msg := bufferMessageBytes errBuf
  if 0 < msg.length then .bufferMessage msg
  else
    match rawCall with
    | .ok r => if r ≠ 0 then .unknownError else .success
    | .error e => .hostException e

/-- The amended precedence: the error buffer is consulted only when the call
failed (raised, or returned a non-zero code); a zero return with no exception
succeeds without reading the buffer. -/
def handleErrorAmended {ε : Type} (errBuf : List Nat) (rawCall : Except ε Int) :
    HandleOutcome ε :=
  let msg := bufferMessageBytes errBuf
  match rawCall with
  | .ok r =>
    if r = 0 then .success
    else if 0 < msg.length then .bufferMessage msg else .unknownError
  | .error e =>
    if 0 < msg.length then .bufferMessage msg else .hostException e

/-- C1 counterexample: with a zero return code, no host exception, and a stale
non-empty error buffer (bytes of the string bad), `handleError` returns
successfully, while the precedence claimed in C1 (buffer message first,
unconditionally) would raise the buffer message.  The code reads the error
buffer only when the call raised or returned a non-zero code. -/
theorem claim1_counterexample :
    handleError (ε := Unit) [98, 97, 100] (Except.ok 0) = HandleOutcome.success ∧
    handleErrorClaimed (ε := Unit) [98, 97, 100] (Except.ok 0)
      = HandleOutcome.bufferMessage [98, 97, 100] ∧
    handleError (ε := Unit) [98, 97, 100] (Except.ok 0)
      ≠ handleErrorClaimed (ε := Unit) [98, 97, 100] (Except.ok 0) := by
  refine ⟨rfl, rfl, ?_⟩
  decide

/-- C1 (amended): `handleError` resolves every combination of return code,
error-buffer contents and host exception to exactly one outcome; when the call
raised an exception or returned a non-zero code, a non-empty error-buffer
message (bytes before the first null, or the whole buffer without one) wins and
any captured exception is discarded; an empty buffer re-raises the captured
exception (exception case) or raises the generic unknown-error condition
(non-zero code case); a zero return with no exception succeeds without
consulting the buffer. -/
theorem claim1_handleError_amended (ε : Type) (errBuf : List Nat) (rawCall : Except ε Int) :
    handleError errBuf rawCall = handleErrorAmended errBuf rawCall := by
  cases rawCall with
  | error e =>
    simp only [handleError, handleErrorAmended, throwWasmError]
  | ok r =>
    by_cases hr : r = 0 <;>
      simp [handleError, handleErrorAmended, throwWasmError, hr]

/-! ### Byte-level lemmas -/

theorem getD_set_self (l : List Nat) (i v : Nat) (h : i < l.length) :
    (l.set i v).getD i 0 = v := by
  induction l generalizing i with
  | nil => simp at h
  | cons a t ih =>
    cases i with
    | zero => rfl
    | succ j =>
      show (t.set j v).getD j 0 = v
      exact ih j (by simpa using h)

theorem getD_set_ne (l : List Nat) (i j v : Nat) (h : i ≠ j) :
    (l.set i v).getD j 0 = l.getD j 0 := by
  induction l generalizing i j with
  | nil => rfl
  | cons a t ih =>
    cases i with
    | zero =>
      cases j with
      | zero => exact absurd rfl h
      | succ m => rfl
    | succ n =>
      cases j with
      | zero => rfl
      | succ m =>
        show (t.set n v).getD m 0 = t.getD m 0
        exact ih n m (by omega)

theorem setBytes_length (vs : List Nat) (s : List Nat) (i : Nat) :
    (setBytes s i vs).length = s.length := by
  induction vs generalizing s i with
  | nil => rfl
  | cons v t ih =>
    show (setBytes (s.set i v) (i + 1) t).length = s.length
    rw [ih, List.length_set]

theorem getD_setBytes_lt (vs : List Nat) (s : List Nat) (i j : Nat) (h : j < i) :
    (setBytes s i vs).getD j 0 = s.getD j 0 := by
  induction vs generalizing s i with
  | nil => rfl
  | cons v t ih =>
    show (setBytes (s.set i v) (i + 1) t).getD j 0 = s.getD j 0
    rw [ih _ (i + 1) (by omega), getD_set_ne _ _ _ _ (by omega)]

theorem getD_setBytes_ge (vs : List Nat) (s : List Nat) (i j : Nat) (h : i + vs.length ≤ j) :
    (setBytes s i vs).getD j 0 = s.getD j 0 := by
  induction vs generalizing s i with
  | nil => rfl
  | cons v t ih =>
    have hl : (i + 1) + t.length ≤ j := by simp [List.length_cons] at h; omega
    show (setBytes (s.set i v) (i + 1) t).getD j 0 = s.getD j 0
    rw [ih _ (i + 1) hl, getD_set_ne _ _ _ _ (by omega)]

theorem readBytes_length (k : Nat) (s : List Nat) (i : Nat) :
    (readBytes s i k).length = k := by
  induction k generalizing i with
  | zero => rfl
  | succ n ih => simp [readBytes, ih]

theorem readBytes_setBytes (vs : List Nat) (s : List Nat) (i : Nat)
    (h : i + vs.length ≤ s.length) :
    readBytes (setBytes s i vs) i vs.length = vs := by
  induction vs generalizing s i with
  | nil => rfl
  | cons v t ih =>
    have hlen : i < s.length := by simp [List.length_cons] at h; omega
    show readBytes (setBytes (s.set i v) (i + 1) t) i (t.length + 1) = v :: t
    simp only [readBytes]
    refine congrArg₂ _ ?_ ?_
    · rw [getD_setBytes_lt _ _ _ _ (by omega), getD_set_self _ _ _ hlen]
    · exact ih (s.set i v) (i + 1) (by simp [List.length_set, List.length_cons] at h ⊢; omega)

theorem readBytes_setBytes_above (vs : List Nat) (s : List Nat) (a k i : Nat)
    (h : a + k ≤ i) :
    readBytes (setBytes s i vs) a k = readBytes s a k := by
  induction k generalizing a with
  | zero => rfl
  | succ n ih =>
    simp only [readBytes]
    rw [getD_setBytes_lt _ _ _ _ (by omega), ih (a + 1) (by omega)]

theorem leBytes_length (k v : Nat) : (leBytes k v).length = k := by
  induction k generalizing v with
  | zero => rfl
  | succ n ih => simp [leBytes, ih]

theorem fromLeBytes_leBytes (k v : Nat) : fromLeBytes (leBytes k v) = v % 256 ^ k := by
  induction k generalizing v with
  | zero => simp [leBytes, fromLeBytes, Nat.mod_one]
  | succ n ih =>
    simp only [leBytes, fromLeBytes, ih]
    have hM : 0 < 256 ^ n := Nat.pos_pow_of_pos n (by norm_num)
    have hq : v % 256 ^ (n + 1) = v % 256 + 256 * (v / 256 % 256 ^ n) := by
      rw [pow_succ, mul_comm (256 ^ n) 256, Nat.mod_mul]
    omega

theorem setBytes_append (u v s : List Nat) (i : Nat) :
    setBytes s i (u ++ v) = setBytes (setBytes s i u) (i + u.length) v := by
  induction u generalizing s i with
  | nil => rfl
  | cons a t ih =>
    show setBytes (s.set i a) (i + 1) (t ++ v)
        = setBytes (setBytes (s.set i a) (i + 1) t) (i + (t.length + 1)) v
    rw [ih]
    congr 1
    omega

theorem leWords_length (w : Nat) (xs : List Nat) :
    (leWords w xs).length = w * xs.length := by
  induction xs with
  | nil => simp [leWords]
  | cons x t ih => simp [leWords, leBytes_length, ih, Nat.mul_succ]; omega

theorem readWords_setBytes (w : Nat) (xs : List Nat) (s : List Nat) (i : Nat)
    (h : i + w * xs.length ≤ s.length) :
    readWords (setBytes s i (leWords w xs)) i w xs.length
      = xs.map (fun x => x % 256 ^ w) := by
  induction xs generalizing s i with
  | nil => rfl
  | cons x t ih =>
    have hlen : i + w + w * t.length ≤ s.length := by
      simp only [List.length_cons, Nat.mul_succ] at h; omega
    show readWords (setBytes s i (leBytes w x ++ leWords w t)) i w (t.length + 1)
        = x % 256 ^ w :: t.map (fun y => y % 256 ^ w)
    rw [setBytes_append, leBytes_length]
    simp only [readWords]
    refine congrArg₂ _ ?_ ?_
    · rw [readBytes_setBytes_above _ _ i w (i + w) le_rfl]
      have hr := readBytes_setBytes (leBytes w x) s i
        (by rw [leBytes_length]; omega)
      rw [leBytes_length] at hr
      rw [hr, fromLeBytes_leBytes]
    · exact ih (setBytes s i (leBytes w x)) (i + w)
        (by rw [setBytes_length]; omega)

theorem map_mod_eq_self (l : List Nat) (M : Nat) (h : ∀ x ∈ l, x < M) :
    l.map (fun x => x % M) = l := by
  induction l with
  | nil => rfl
  | cons a t ih =>
    simp only [List.map_cons, Nat.mod_eq_of_lt (h a (by simp))]
    rw [ih (fun x hx => h x (by simp [hx]))]

theorem uint32ToInt_intToUint32 (v : Int) (h1 : -(2 ^ 31) ≤ v) (h2 : v < 2 ^ 31) :
    uint32ToInt (intToUint32 v) = v := by
  unfold intToUint32 uint32ToInt
  split <;> omega

theorem alignUp4_div_mul (x : Nat) : alignUp x 4 / 4 * 4 = alignUp x 4 := by
  unfold alignUp; omega

theorem alignUp8_div_mul (x : Nat) : alignUp x 8 / 8 * 8 = alignUp x 8 := by
  unfold alignUp; omega

/-! ### Characterizations of the conduit operations -/

theorem writeUint8_eq (c : Channel) (v : Nat) :
    Writer.writeUint8 c v =
      if c.storage.length < c.offset + 1 then (none, c)
      else (some (), ⟨c.offset + 1, c.storage.set c.offset (v % 256)⟩) := by
  unfold Writer.writeUint8 Channel.offset8 Channel.advance8
  by_cases h : c.storage.length < c.offset + 1 <;> simp [h]

theorem writeUint32_eq (c : Channel) (v : Nat) :
    Writer.writeUint32 c v =
      if c.storage.length < alignUp c.offset 4 + 4 then
        (none, ⟨alignUp c.offset 4, c.storage⟩)
      else
        (some (), ⟨alignUp c.offset 4 + 4,
          setBytes c.storage (alignUp c.offset 4) (leBytes 4 v)⟩) := by
  unfold Writer.writeUint32 Channel.offset32 Channel.advance32 Channel.advance8
  by_cases h : c.storage.length < alignUp c.offset 4 + 4 <;>
    simp [h, alignUp4_div_mul]

theorem writeInt32_eq (c : Channel) (v : Int) :
    Writer.writeInt32 c v =
      if c.storage.length < alignUp c.offset 4 + 4 then
        (none, ⟨alignUp c.offset 4, c.storage⟩)
      else
        (some (), ⟨alignUp c.offset 4 + 4,
          setBytes c.storage (alignUp c.offset 4) (leBytes 4 (intToUint32 v))⟩) := by
  unfold Writer.writeInt32 Channel.offset32 Channel.advance32 Channel.advance8
  by_cases h : c.storage.length < alignUp c.offset 4 + 4 <;>
    simp [h, alignUp4_div_mul]

theorem writeFloat32_eq (c : Channel) (v : Nat) :
    Writer.writeFloat32 c v =
      if c.storage.length < alignUp c.offset 4 + 4 then
        (none, ⟨alignUp c.offset 4, c.storage⟩)
      else
        (some (), ⟨alignUp c.offset 4 + 4,
          setBytes c.storage (alignUp c.offset 4) (leBytes 4 v)⟩) := by
  unfold Writer.writeFloat32 Channel.offset32 Channel.advance32 Channel.advance8
  by_cases h : c.storage.length < alignUp c.offset 4 + 4 <;>
    simp [h, alignUp4_div_mul]

theorem writeFloat64_eq (c : Channel) (v : Nat) :
    Writer.writeFloat64 c v =
      if c.storage.length < alignUp c.offset 8 + 8 then
        (none, ⟨alignUp c.offset 8, c.storage⟩)
      else
        (some (), ⟨alignUp c.offset 8 + 8,
          setBytes c.storage (alignUp c.offset 8) (leBytes 8 v)⟩) := by
  unfold Writer.writeFloat64 Channel.offset64 Channel.advance64 Channel.advance8
  by_cases h : c.storage.length < alignUp c.offset 8 + 8 <;>
    simp [h, alignUp8_div_mul]

theorem initUint8_eq (c : Channel) :
    Writer.initUint8 c =
      if c.storage.length < c.offset + 1 then (none, c)
      else (some c.offset, ⟨c.offset + 1, c.storage⟩) := by
  unfold Writer.initUint8 Channel.offset8 Channel.advance8
  by_cases h : c.storage.length < c.offset + 1 <;> simp [h]

theorem initUint32_eq (c : Channel) :
    Writer.initUint32 c =
      if c.storage.length < alignUp c.offset 4 + 4 then
        (none, ⟨alignUp c.offset 4, c.storage⟩)
      else (some (alignUp c.offset 4 / 4), ⟨alignUp c.offset 4 + 4, c.storage⟩) := by
  unfold Writer.initUint32 Channel.offset32 Channel.advance32 Channel.advance8
  by_cases h : c.storage.length < alignUp c.offset 4 + 4 <;> simp [h]

theorem initInt32_eq (c : Channel) :
    Writer.initInt32 c =
      if c.storage.length < alignUp c.offset 4 + 4 then
        (none, ⟨alignUp c.offset 4, c.storage⟩)
      else (some (alignUp c.offset 4 / 4), ⟨alignUp c.offset 4 + 4, c.storage⟩) := by
  unfold Writer.initInt32 Channel.offset32 Channel.advance32 Channel.advance8
  by_cases h : c.storage.length < alignUp c.offset 4 + 4 <;> simp [h]

theorem initFloat32_eq (c : Channel) :
    Writer.initFloat32 c =
      if c.storage.length < alignUp c.offset 4 + 4 then
        (none, ⟨alignUp c.offset 4, c.storage⟩)
      else (some (alignUp c.offset 4 / 4), ⟨alignUp c.offset 4 + 4, c.storage⟩) := by
  unfold Writer.initFloat32 Channel.offset32 Channel.advance32 Channel.advance8
  by_cases h : c.storage.length < alignUp c.offset 4 + 4 <;> simp [h]

theorem initFloat64_eq (c : Channel) :
    Writer.initFloat64 c =
      if c.storage.length < alignUp c.offset 8 + 8 then
        (none, ⟨alignUp c.offset 8, c.storage⟩)
      else (some (alignUp c.offset 8 / 8), ⟨alignUp c.offset 8 + 8, c.storage⟩) := by
  unfold Writer.initFloat64 Channel.offset64 Channel.advance64 Channel.advance8
  by_cases h : c.storage.length < alignUp c.offset 8 + 8 <;> simp [h]

theorem initUint8Elements_eq (c : Channel) (n : Nat) :
    Writer.initUint8Elements c n =
      if c.storage.length < c.offset + n then (none, c)
      else (some c.offset, ⟨c.offset + n, c.storage⟩) := by
  unfold Writer.initUint8Elements Channel.offset8 Channel.advance8
  by_cases h : c.storage.length < c.offset + n <;> simp [h]

theorem initUint32Elements_eq (c : Channel) (n : Nat) :
    Writer.initUint32Elements c n =
      if c.storage.length < alignUp c.offset 4 + n * 4 then
        (none, ⟨alignUp c.offset 4, c.storage⟩)
      else (some (alignUp c.offset 4 / 4), ⟨alignUp c.offset 4 + n * 4, c.storage⟩) := by
  unfold Writer.initUint32Elements Channel.offset32 Channel.advance32 Channel.advance8
  by_cases h : c.storage.length < alignUp c.offset 4 + n * 4 <;> simp [h]

theorem initFloat64Elements_eq (c : Channel) (n : Nat) :
    Writer.initFloat64Elements c n =
      if c.storage.length < alignUp c.offset 8 + n * 8 then
        (none, ⟨alignUp c.offset 8, c.storage⟩)
      else (some (alignUp c.offset 8 / 8), ⟨alignUp c.offset 8 + n * 8, c.storage⟩) := by
  unfold Writer.initFloat64Elements Channel.offset64 Channel.advance64 Channel.advance8
  by_cases h : c.storage.length < alignUp c.offset 8 + n * 8 <;> simp [h]

theorem copyUint8Elements_eq (c : Channel) (arr : List Nat) :
    Writer.copyUint8Elements c arr =
      if c.storage.length < c.offset + arr.length then (none, c)
      else (some (), ⟨c.offset + arr.length,
        setBytes c.storage c.offset (arr.map (fun x => x % 256))⟩) := by
  unfold Writer.copyUint8Elements Channel.offset8 Channel.advance8
  by_cases h : c.storage.length < c.offset + arr.length <;> simp [h]

theorem copyUint32Elements_eq (c : Channel) (arr : List Nat) :
    Writer.copyUint32Elements c arr =
      if c.storage.length < alignUp c.offset 4 + arr.length * 4 then
        (none, ⟨alignUp c.offset 4, c.storage⟩)
      else (some (), ⟨alignUp c.offset 4 + arr.length * 4,
        setBytes c.storage (alignUp c.offset 4) (leWords 4 arr)⟩) := by
  unfold Writer.copyUint32Elements Channel.offset32 Channel.advance32 Channel.advance8
  by_cases h : c.storage.length < alignUp c.offset 4 + arr.length * 4 <;>
    simp [h, alignUp4_div_mul]

theorem copyInt32Elements_eq (c : Channel) (arr : List Int) :
    Writer.copyInt32Elements c arr =
      if c.storage.length < alignUp c.offset 4 + arr.length * 4 then
        (none, ⟨alignUp c.offset 4, c.storage⟩)
      else (some (), ⟨alignUp c.offset 4 + arr.length * 4,
        setBytes c.storage (alignUp c.offset 4) (leWords 4 (arr.map intToUint32))⟩) := by
  unfold Writer.copyInt32Elements Channel.offset32 Channel.advance32 Channel.advance8
  by_cases h : c.storage.length < alignUp c.offset 4 + arr.length * 4 <;>
    simp [h, alignUp4_div_mul]

theorem copyFloat32Elements_eq (c : Channel) (arr : List Nat) :
    Writer.copyFloat32Elements c arr =
      if c.storage.length < alignUp c.offset 4 + arr.length * 4 then
        (none, ⟨alignUp c.offset 4, c.storage⟩)
      else (some (), ⟨alignUp c.offset 4 + arr.length * 4,
        setBytes c.storage (alignUp c.offset 4) (leWords 4 arr)⟩) := by
  unfold Writer.copyFloat32Elements Channel.offset32 Channel.advance32 Channel.advance8
  by_cases h : c.storage.length < alignUp c.offset 4 + arr.length * 4 <;>
    simp [h, alignUp4_div_mul]

theorem copyFloat64Elements_eq (c : Channel) (arr : List Nat) :
    Writer.copyFloat64Elements c arr =
      if c.storage.length < alignUp c.offset 8 + arr.length * 8 then
        (none, ⟨alignUp c.offset 8, c.storage⟩)
      else (some (), ⟨alignUp c.offset 8 + arr.length * 8,
        setBytes c.storage (alignUp c.offset 8) (leWords 8 arr)⟩) := by
  unfold Writer.copyFloat64Elements Channel.offset64 Channel.advance64 Channel.advance8
  by_cases h : c.storage.length < alignUp c.offset 8 + arr.length * 8 <;>
    simp [h, alignUp8_div_mul]

theorem readUint8_eq (c : Channel) :
    Reader.readUint8 c =
      if c.storage.length < c.offset + 1 then (none, c)
      else (some (c.storage.getD c.offset 0), ⟨c.offset + 1, c.storage⟩) := by
  unfold Reader.readUint8 Channel.offset8 Channel.advance8
  by_cases h : c.storage.length < c.offset + 1 <;> simp [h]

theorem readUint32_eq (c : Channel) :
    Reader.readUint32 c =
      if c.storage.length < alignUp c.offset 4 + 4 then
        (none, ⟨alignUp c.offset 4, c.storage⟩)
      else (some (fromLeBytes (readBytes c.storage (alignUp c.offset 4) 4)),
        ⟨alignUp c.offset 4 + 4, c.storage⟩) := by
  unfold Reader.readUint32 Channel.offset32 Channel.advance32 Channel.advance8
  by_cases h : c.storage.length < alignUp c.offset 4 + 4 <;>
    simp [h, alignUp4_div_mul]

theorem readInt32_eq (c : Channel) :
    Reader.readInt32 c =
      if c.storage.length < alignUp c.offset 4 + 4 then
        (none, ⟨alignUp c.offset 4, c.storage⟩)
      else (some (uint32ToInt (fromLeBytes (readBytes c.storage (alignUp c.offset 4) 4))),
        ⟨alignUp c.offset 4 + 4, c.storage⟩) := by
  unfold Reader.readInt32 Channel.offset32 Channel.advance32 Channel.advance8
  by_cases h : c.storage.length < alignUp c.offset 4 + 4 <;>
    simp [h, alignUp4_div_mul]

theorem readFloat32_eq (c : Channel) :
    Reader.readFloat32 c =
      if c.storage.length < alignUp c.offset 4 + 4 then
        (none, ⟨alignUp c.offset 4, c.storage⟩)
      else (some (fromLeBytes (readBytes c.storage (alignUp c.offset 4) 4)),
        ⟨alignUp c.offset 4 + 4, c.storage⟩) := by
  unfold Reader.readFloat32 Channel.offset32 Channel.advance32 Channel.advance8
  by_cases h : c.storage.length < alignUp c.offset 4 + 4 <;>
    simp [h, alignUp4_div_mul]

theorem readFloat64_eq (c : Channel) :
    Reader.readFloat64 c =
      if c.storage.length < alignUp c.offset 8 + 8 then
        (none, ⟨alignUp c.offset 8, c.storage⟩)
      else (some (fromLeBytes (readBytes c.storage (alignUp c.offset 8) 8)),
        ⟨alignUp c.offset 8 + 8, c.storage⟩) := by
  unfold Reader.readFloat64 Channel.offset64 Channel.advance64 Channel.advance8
  by_cases h : c.storage.length < alignUp c.offset 8 + 8 <;>
    simp [h, alignUp8_div_mul]

theorem readUint8Elements_eq (c : Channel) (n : Nat) :
    Reader.readUint8Elements c n =
      if c.storage.length < c.offset + n then (none, c)
      else (some (readBytes c.storage c.offset n), ⟨c.offset + n, c.storage⟩) := by
  unfold Reader.readUint8Elements Channel.offset8 Channel.advance8
  by_cases h : c.storage.length < c.offset + n <;> simp [h]

theorem readUint32Elements_eq (c : Channel) (n : Nat) :
    Reader.readUint32Elements c n =
      if c.storage.length < alignUp c.offset 4 + n * 4 then
        (none, ⟨alignUp c.offset 4, c.storage⟩)
      else (some (readWords c.storage (alignUp c.offset 4) 4 n),
        ⟨alignUp c.offset 4 + n * 4, c.storage⟩) := by
  unfold Reader.readUint32Elements Channel.offset32 Channel.advance32 Channel.advance8
  by_cases h : c.storage.length < alignUp c.offset 4 + n * 4 <;>
    simp [h, alignUp4_div_mul]

theorem readInt32Elements_eq (c : Channel) (n : Nat) :
    Reader.readInt32Elements c n =
      if c.storage.length < alignUp c.offset 4 + n * 4 then
        (none, ⟨alignUp c.offset 4, c.storage⟩)
      else (some ((readWords c.storage (alignUp c.offset 4) 4 n).map uint32ToInt),
        ⟨alignUp c.offset 4 + n * 4, c.storage⟩) := by
  unfold Reader.readInt32Elements Channel.offset32 Channel.advance32 Channel.advance8
  by_cases h : c.storage.length < alignUp c.offset 4 + n * 4 <;>
    simp [h, alignUp4_div_mul]

theorem readFloat32Elements_eq (c : Channel) (n : Nat) :
    Reader.readFloat32Elements c n =
      if c.storage.length < alignUp c.offset 4 + n * 4 then
        (none, ⟨alignUp c.offset 4, c.storage⟩)
      else (some (readWords c.storage (alignUp c.offset 4) 4 n),
        ⟨alignUp c.offset 4 + n * 4, c.storage⟩) := by
  unfold Reader.readFloat32Elements Channel.offset32 Channel.advance32 Channel.advance8
  by_cases h : c.storage.length < alignUp c.offset 4 + n * 4 <;>
    simp [h, alignUp4_div_mul]

theorem readFloat64Elements_eq (c : Channel) (n : Nat) :
    Reader.readFloat64Elements c n =
      if c.storage.length < alignUp c.offset 8 + n * 8 then
        (none, ⟨alignUp c.offset 8, c.storage⟩)
      else (some (readWords c.storage (alignUp c.offset 8) 8 n),
        ⟨alignUp c.offset 8 + n * 8, c.storage⟩) := by
  unfold Reader.readFloat64Elements Channel.offset64 Channel.advance64 Channel.advance8
  by_cases h : c.storage.length < alignUp c.offset 8 + n * 8 <;>
    simp [h, alignUp8_div_mul]

/-! ### C2 — alignment discipline of reads/writes -/

/-- C2: 1-byte operations use the raw cursor and advance it by 1; 4-byte
operations (u32/i32/f32, including the u32 array-length prefix of
`copyUint8Array`) first round the cursor up to the next multiple of 4, place
the value there, then advance by 4; 8-byte operations (f64) round up to the
next multiple of 8 and advance by 8.  In particular a 1-byte write followed by
a 4-byte write places the 4-byte value at the next multiple of 4 (a position
divisible by 4 and at or after the byte cursor), not immediately after the
byte. -/
theorem claim2_alignment (c : Channel) (v u p q m : Nat) (w : Int)
    (h : alignUp c.offset 8 + 8 ≤ c.storage.length) :
    Writer.writeUint8 c v = (some (), ⟨c.offset + 1, c.storage.set c.offset (v % 256)⟩)
    ∧ Writer.writeUint32 c u
      = (some (), ⟨alignUp c.offset 4 + 4,
          setBytes c.storage (alignUp c.offset 4) (leBytes 4 u)⟩)
    ∧ Writer.writeInt32 c w
      = (some (), ⟨alignUp c.offset 4 + 4,
          setBytes c.storage (alignUp c.offset 4) (leBytes 4 (intToUint32 w))⟩)
    ∧ Writer.writeFloat32 c p
      = (some (), ⟨alignUp c.offset 4 + 4,
          setBytes c.storage (alignUp c.offset 4) (leBytes 4 p)⟩)
    ∧ Writer.writeFloat64 c q
      = (some (), ⟨alignUp c.offset 8 + 8,
          setBytes c.storage (alignUp c.offset 8) (leBytes 8 q)⟩)
    ∧ (Reader.readUint8 c).2.offset = c.offset + 1
    ∧ (Reader.readUint32 c).2.offset = alignUp c.offset 4 + 4
    ∧ (Reader.readFloat64 c).2.offset = alignUp c.offset 8 + 8
    ∧ (Writer.copyUint8Array c []).2.offset = alignUp c.offset 4 + 4
    ∧ (Writer.writeUint32 (Writer.writeUint8 c v).2 m).1 = some ()
    ∧ (Writer.writeUint32 (Writer.writeUint8 c v).2 m).2.offset
        = alignUp (c.offset + 1) 4 + 4
    ∧ readBytes (Writer.writeUint32 (Writer.writeUint8 c v).2 m).2.storage
        (alignUp (c.offset + 1) 4) 4 = leBytes 4 m
    ∧ alignUp (c.offset + 1) 4 % 4 = 0
    ∧ c.offset + 1 ≤ alignUp (c.offset + 1) 4 := by
  have h1 : ¬ (c.storage.length < c.offset + 1) := by unfold alignUp at h; omega
  have h4 : ¬ (c.storage.length < alignUp c.offset 4 + 4) := by
    unfold alignUp at h ⊢; omega
  have h8 : ¬ (c.storage.length < alignUp c.offset 8 + 8) := by omega
  have h4b : ¬ (c.storage.length < alignUp (c.offset + 1) 4 + 4) := by
    unfold alignUp at h ⊢; omega
  have len1 : (c.storage.set c.offset (v % 256)).length = c.storage.length :=
    List.length_set c.storage c.offset (v % 256)
  refine ⟨?_, ?_, ?_, ?_, ?_, ?_, ?_, ?_, ?_, ?_, ?_, ?_, ?_, ?_⟩
  · rw [writeUint8_eq, if_neg h1]
  · rw [writeUint32_eq, if_neg h4]
  · rw [writeInt32_eq, if_neg h4]
  · rw [writeFloat32_eq, if_neg h4]
  · rw [writeFloat64_eq, if_neg h8]
  · rw [readUint8_eq, if_neg h1]
  · rw [readUint32_eq, if_neg h4]
  · rw [readFloat64_eq, if_neg h8]
  · simp [Writer.copyUint8Array, writeUint32_eq, copyUint8Elements_eq,
      setBytes_length, h4]
  · simp [writeUint8_eq, writeUint32_eq, h1, len1, h4b]
  · simp [writeUint8_eq, writeUint32_eq, h1, len1, h4b]
  · simp only [writeUint8_eq, if_neg h1, writeUint32_eq]
    simp only [len1, if_neg h4b]
    have hr := readBytes_setBytes (leBytes 4 m) (c.storage.set c.offset (v % 256))
      (alignUp (c.offset + 1) 4)
      (by rw [leBytes_length, len1]; unfold alignUp at h ⊢; omega)
    rw [leBytes_length] at hr
    exact hr
  · unfold alignUp; omega
  · unfold alignUp; omega

/-- C2 witness: concrete instance — on a fresh 16-byte channel the u32 read
cursor lands at `alignUp 0 4 + 4`. -/
theorem claim2_alignment_witness :
    (Reader.readUint32 ⟨0, List.replicate 16 0⟩).2.offset = alignUp 0 4 + 4 :=
  (claim2_alignment ⟨0, List.replicate 16 0⟩ 255 7 1 2 9 (-5)
    (by decide)).2.2.2.2.2.2.1

/-! ### C3 — bounds conditions, C10 — failure purity -/

/-- A conduit operation on channel `c` is bounds-checked against target
position `T` and width `W` when: it signals the (catchable) bounds error
exactly when `T + W` exceeds capacity, it never changes the extent of the
channel's byte region, and a failing run leaves the bytes untouched. -/
def boundsChecked {α : Type} (c : Channel) (r : Option α × Channel)
    (T W : Nat) : Prop :=
  (r.1 = none ↔ c.storage.length < T + W)
  ∧ r.2.storage.length = c.storage.length
  ∧ (r.1 = none → r.2.storage = c.storage)

theorem boundsChecked_of_eq {α : Type} (c cf cs : Channel) (r : Option α × Channel)
    (x : α) (T W : Nat)
    (hr : r = if c.storage.length < T + W then (none, cf) else (some x, cs))
    (hf : cf.storage = c.storage) (hs : cs.storage.length = c.storage.length) :
    boundsChecked c r T W := by
  subst hr
  by_cases hb : c.storage.length < T + W
  · exact ⟨by simp [hb], by simp [hb, hf], fun _ => by simp [hb, hf]⟩
  · exact ⟨by simp [hb], by simp [hb, hs], fun hn => by simp [hb] at hn⟩

/-- A conduit operation fails cleanly when a bounds failure leaves the storage
bytes untouched and the cursor exactly at the alignment boundary `A` the
operation had already moved it to. -/
def failsClean {α : Type} (c : Channel) (r : Option α × Channel) (A : Nat) : Prop :=
  r.1 = none → r.2.storage = c.storage ∧ r.2.offset = A

theorem failsClean_of_eq {α : Type} (c cf cs : Channel) (r : Option α × Channel)
    (x : α) (b : Prop) [Decidable b] (A : Nat)
    (hr : r = if b then (none, cf) else (some x, cs))
    (hf : cf.storage = c.storage) (ho : cf.offset = A) :
    failsClean c r A := by
  subst hr
  intro hn
  by_cases hb : b
  · simp only [if_pos hb]
    exact ⟨hf, ho⟩
  · simp [hb] at hn

/-- C3: every conduit read/write operation signals its bounds error exactly
when the aligned cursor plus the operation's total width would exceed the
channel capacity; the error is a recoverable value (`none`, modelling the
thrown catchable JS `Error`, not a crash); the byte region never changes
extent; and a failing operation leaves the channel's bytes untouched (so it
never writes inside, let alone outside, the channel's byte region). -/
theorem claim3_bounds (c : Channel) (v u p q n : Nat) (w : Int)
    (a8 u32s f32s f64s : List Nat) (i32s : List Int) :
    boundsChecked c (Writer.writeUint8 c v) c.offset 1
    ∧ boundsChecked c (Writer.writeUint32 c u) (alignUp c.offset 4) 4
    ∧ boundsChecked c (Writer.writeInt32 c w) (alignUp c.offset 4) 4
    ∧ boundsChecked c (Writer.writeFloat32 c p) (alignUp c.offset 4) 4
    ∧ boundsChecked c (Writer.writeFloat64 c q) (alignUp c.offset 8) 8
    ∧ boundsChecked c (Reader.readUint8 c) c.offset 1
    ∧ boundsChecked c (Reader.readUint32 c) (alignUp c.offset 4) 4
    ∧ boundsChecked c (Reader.readInt32 c) (alignUp c.offset 4) 4
    ∧ boundsChecked c (Reader.readFloat32 c) (alignUp c.offset 4) 4
    ∧ boundsChecked c (Reader.readFloat64 c) (alignUp c.offset 8) 8
    ∧ boundsChecked c (Writer.copyUint8Elements c a8) c.offset a8.length
    ∧ boundsChecked c (Writer.copyUint32Elements c u32s) (alignUp c.offset 4) (u32s.length * 4)
    ∧ boundsChecked c (Writer.copyInt32Elements c i32s) (alignUp c.offset 4) (i32s.length * 4)
    ∧ boundsChecked c (Writer.copyFloat32Elements c f32s) (alignUp c.offset 4) (f32s.length * 4)
    ∧ boundsChecked c (Writer.copyFloat64Elements c f64s) (alignUp c.offset 8) (f64s.length * 8)
    ∧ boundsChecked c (Reader.readUint8Elements c n) c.offset n
    ∧ boundsChecked c (Reader.readUint32Elements c n) (alignUp c.offset 4) (n * 4)
    ∧ boundsChecked c (Reader.readInt32Elements c n) (alignUp c.offset 4) (n * 4)
    ∧ boundsChecked c (Reader.readFloat32Elements c n) (alignUp c.offset 4) (n * 4)
    ∧ boundsChecked c (Reader.readFloat64Elements c n) (alignUp c.offset 8) (n * 8) := by
  refine ⟨?_, ?_, ?_, ?_, ?_, ?_, ?_, ?_, ?_, ?_, ?_, ?_, ?_, ?_, ?_, ?_, ?_, ?_, ?_, ?_⟩
  · exact boundsChecked_of_eq c _ _ _ _ _ _ (writeUint8_eq c v) rfl
      (List.length_set c.storage c.offset (v % 256))
  · exact boundsChecked_of_eq c _ _ _ _ _ _ (writeUint32_eq c u) rfl
      (setBytes_length _ _ _)
  · exact boundsChecked_of_eq c _ _ _ _ _ _ (writeInt32_eq c w) rfl
      (setBytes_length _ _ _)
  · exact boundsChecked_of_eq c _ _ _ _ _ _ (writeFloat32_eq c p) rfl
      (setBytes_length _ _ _)
  · exact boundsChecked_of_eq c _ _ _ _ _ _ (writeFloat64_eq c q) rfl
      (setBytes_length _ _ _)
  · exact boundsChecked_of_eq c _ _ _ _ _ _ (readUint8_eq c) rfl rfl
  · exact boundsChecked_of_eq c _ _ _ _ _ _ (readUint32_eq c) rfl rfl
  · exact boundsChecked_of_eq c _ _ _ _ _ _ (readInt32_eq c) rfl rfl
  · exact boundsChecked_of_eq c _ _ _ _ _ _ (readFloat32_eq c) rfl rfl
  · exact boundsChecked_of_eq c _ _ _ _ _ _ (readFloat64_eq c) rfl rfl
  · exact boundsChecked_of_eq c _ _ _ _ _ _ (copyUint8Elements_eq c a8) rfl
      (setBytes_length _ _ _)
  · exact boundsChecked_of_eq c _ _ _ _ _ _ (copyUint32Elements_eq c u32s) rfl
      (setBytes_length _ _ _)
  · exact boundsChecked_of_eq c _ _ _ _ _ _ (copyInt32Elements_eq c i32s) rfl
      (setBytes_length _ _ _)
  · exact boundsChecked_of_eq c _ _ _ _ _ _ (copyFloat32Elements_eq c f32s) rfl
      (setBytes_length _ _ _)
  · exact boundsChecked_of_eq c _ _ _ _ _ _ (copyFloat64Elements_eq c f64s) rfl
      (setBytes_length _ _ _)
  · exact boundsChecked_of_eq c _ _ _ _ _ _ (readUint8Elements_eq c n) rfl rfl
  · exact boundsChecked_of_eq c _ _ _ _ _ _ (readUint32Elements_eq c n) rfl rfl
  · exact boundsChecked_of_eq c _ _ _ _ _ _ (readInt32Elements_eq c n) rfl rfl
  · exact boundsChecked_of_eq c _ _ _ _ _ _ (readFloat32Elements_eq c n) rfl rfl
  · exact boundsChecked_of_eq c _ _ _ _ _ _ (readFloat64Elements_eq c n) rfl rfl

/-- C3 witness: a u32 write on a full 4-byte channel at cursor 3 fails (the
aligned cursor 4 plus width 4 exceeds capacity 4), and the bytes are
untouched. -/
theorem claim3_bounds_witness :
    (Writer.writeUint32 ⟨3, [0, 0, 0, 0]⟩ 5).1 = none
    ∧ (Writer.writeUint32 ⟨3, [0, 0, 0, 0]⟩ 5).2.storage = [0, 0, 0, 0] := by
  have hc := (claim3_bounds ⟨3, [0, 0, 0, 0]⟩ 5 5 5 5 0 5 [] [] [] [] []).2.1
  exact ⟨hc.1.mpr (by decide), hc.2.2 (hc.1.mpr (by decide))⟩

/-- C10: for every Writer operation — scalar write, init reservation (scalar
or element block), or bulk element copy — a bounds failure happens before any
store: the failing operation leaves every byte of the channel's storage
unmodified, although the cursor has already been moved to the alignment
boundary (for 4/8-byte aligned operations) or left at the raw cursor (1-byte
operations). -/
theorem claim10_fail_no_store (c : Channel) (v u p q n : Nat) (w : Int)
    (a8 u32s f32s f64s : List Nat) (i32s : List Int) :
    failsClean c (Writer.writeUint8 c v) c.offset
    ∧ failsClean c (Writer.writeUint32 c u) (alignUp c.offset 4)
    ∧ failsClean c (Writer.writeInt32 c w) (alignUp c.offset 4)
    ∧ failsClean c (Writer.writeFloat32 c p) (alignUp c.offset 4)
    ∧ failsClean c (Writer.writeFloat64 c q) (alignUp c.offset 8)
    ∧ failsClean c (Writer.initUint8 c) c.offset
    ∧ failsClean c (Writer.initUint32 c) (alignUp c.offset 4)
    ∧ failsClean c (Writer.initInt32 c) (alignUp c.offset 4)
    ∧ failsClean c (Writer.initFloat32 c) (alignUp c.offset 4)
    ∧ failsClean c (Writer.initFloat64 c) (alignUp c.offset 8)
    ∧ failsClean c (Writer.initUint8Elements c n) c.offset
    ∧ failsClean c (Writer.initUint32Elements c n) (alignUp c.offset 4)
    ∧ failsClean c (Writer.initFloat64Elements c n) (alignUp c.offset 8)
    ∧ failsClean c (Writer.copyUint8Elements c a8) c.offset
    ∧ failsClean c (Writer.copyUint32Elements c u32s) (alignUp c.offset 4)
    ∧ failsClean c (Writer.copyInt32Elements c i32s) (alignUp c.offset 4)
    ∧ failsClean c (Writer.copyFloat32Elements c f32s) (alignUp c.offset 4)
    ∧ failsClean c (Writer.copyFloat64Elements c f64s) (alignUp c.offset 8) := by
  refine ⟨?_, ?_, ?_, ?_, ?_, ?_, ?_, ?_, ?_, ?_, ?_, ?_, ?_, ?_, ?_, ?_, ?_, ?_⟩
  · exact failsClean_of_eq c _ _ _ _ _ _ (writeUint8_eq c v) rfl rfl
  · exact failsClean_of_eq c _ _ _ _ _ _ (writeUint32_eq c u) rfl rfl
  · exact failsClean_of_eq c _ _ _ _ _ _ (writeInt32_eq c w) rfl rfl
  · exact failsClean_of_eq c _ _ _ _ _ _ (writeFloat32_eq c p) rfl rfl
  · exact failsClean_of_eq c _ _ _ _ _ _ (writeFloat64_eq c q) rfl rfl
  · exact failsClean_of_eq c _ _ _ _ _ _ (initUint8_eq c) rfl rfl
  · exact failsClean_of_eq c _ _ _ _ _ _ (initUint32_eq c) rfl rfl
  · exact failsClean_of_eq c _ _ _ _ _ _ (initInt32_eq c) rfl rfl
  · exact failsClean_of_eq c _ _ _ _ _ _ (initFloat32_eq c) rfl rfl
  · exact failsClean_of_eq c _ _ _ _ _ _ (initFloat64_eq c) rfl rfl
  · exact failsClean_of_eq c _ _ _ _ _ _ (initUint8Elements_eq c n) rfl rfl
  · exact failsClean_of_eq c _ _ _ _ _ _ (initUint32Elements_eq c n) rfl rfl
  · exact failsClean_of_eq c _ _ _ _ _ _ (initFloat64Elements_eq c n) rfl rfl
  · exact failsClean_of_eq c _ _ _ _ _ _ (copyUint8Elements_eq c a8) rfl rfl
  · exact failsClean_of_eq c _ _ _ _ _ _ (copyUint32Elements_eq c u32s) rfl rfl
  · exact failsClean_of_eq c _ _ _ _ _ _ (copyInt32Elements_eq c i32s) rfl rfl
  · exact failsClean_of_eq c _ _ _ _ _ _ (copyFloat32Elements_eq c f32s) rfl rfl
  · exact failsClean_of_eq c _ _ _ _ _ _ (copyFloat64Elements_eq c f64s) rfl rfl

/-- C10 witness: a failing f64 bulk copy (two elements on an 8-byte channel)
leaves the bytes untouched with the cursor at the 8-byte boundary. -/
theorem claim10_fail_no_store_witness :
    (Writer.copyFloat64Elements ⟨1, [0, 0, 0, 0, 0, 0, 0, 0]⟩ [1, 2]).2.storage
      = [0, 0, 0, 0, 0, 0, 0, 0]
    ∧ (Writer.copyFloat64Elements ⟨1, [0, 0, 0, 0, 0, 0, 0, 0]⟩ [1, 2]).2.offset = 8 := by
  have hc := (claim10_fail_no_store ⟨1, [0, 0, 0, 0, 0, 0, 0, 0]⟩ 0 0 0 0 0 0
    [] [] [] [1, 2] []).2.2.2.2.2.2.2.2.2.2.2.2.2.2.2.2.2
  exact hc (by decide)

/-! ### Array write/read composition -/

theorem alignUp_alignUp4 (x : Nat) : alignUp (alignUp x 4 + 4) 4 = alignUp x 4 + 4 := by
  unfold alignUp; omega

theorem pow256_4 : (256 : Nat) ^ 4 = 2 ^ 32 := by norm_num

theorem pow256_8 : (256 : Nat) ^ 8 = 2 ^ 64 := by norm_num

theorem intToUint32_lt (v : Int) : intToUint32 v < 2 ^ 32 := by
  unfold intToUint32; omega

theorem copyUint8Array_eq_of_le (c : Channel) (arr : List Nat)
    (hb : alignUp c.offset 4 + 4 + arr.length ≤ c.storage.length) :
    Writer.copyUint8Array c arr =
      (some (), ⟨alignUp c.offset 4 + 4 + arr.length,
        setBytes (setBytes c.storage (alignUp c.offset 4) (leBytes 4 arr.length))
          (alignUp c.offset 4 + 4) (arr.map (fun x => x % 256))⟩) := by
  unfold Writer.copyUint8Array
  rw [writeUint32_eq, if_neg (by omega)]
  show Writer.copyUint8Elements
      ⟨alignUp c.offset 4 + 4,
        setBytes c.storage (alignUp c.offset 4) (leBytes 4 arr.length)⟩ arr = _
  rw [copyUint8Elements_eq, if_neg (by simp only [setBytes_length]; omega)]

theorem roundTrip_u8Array (c : Channel) (arr : List Nat)
    (ha : ∀ x ∈ arr, x < 256) (hlen : arr.length < 2 ^ 32)
    (hb : alignUp c.offset 4 + 4 + arr.length ≤ c.storage.length) :
    Reader.readUint8Array ⟨c.offset, (Writer.copyUint8Array c arr).2.storage⟩
      = (some arr, ⟨alignUp c.offset 4 + 4 + arr.length,
          (Writer.copyUint8Array c arr).2.storage⟩) := by
  rw [copyUint8Array_eq_of_le c arr hb]
  unfold Reader.readUint8Array
  have hlS1 : (setBytes c.storage (alignUp c.offset 4) (leBytes 4 arr.length)).length
      = c.storage.length := setBytes_length _ _ _
  have hlS2 : (setBytes (setBytes c.storage (alignUp c.offset 4) (leBytes 4 arr.length))
        (alignUp c.offset 4 + 4) (arr.map (fun x => x % 256))).length
      = c.storage.length := by rw [setBytes_length, hlS1]
  have h32 : Reader.readUint32
      ⟨c.offset, setBytes (setBytes c.storage (alignUp c.offset 4) (leBytes 4 arr.length))
        (alignUp c.offset 4 + 4) (arr.map (fun x => x % 256))⟩
      = (some arr.length,
        ⟨alignUp c.offset 4 + 4,
          setBytes (setBytes c.storage (alignUp c.offset 4) (leBytes 4 arr.length))
            (alignUp c.offset 4 + 4) (arr.map (fun x => x % 256))⟩) := by
    rw [readUint32_eq]
    rw [if_neg (by simp only [setBytes_length]; omega)]
    have habove := readBytes_setBytes_above (arr.map (fun x => x % 256))
      (setBytes c.storage (alignUp c.offset 4) (leBytes 4 arr.length))
      (alignUp c.offset 4) 4 (alignUp c.offset 4 + 4) (by omega)
    rw [habove]
    have hr := readBytes_setBytes (leBytes 4 arr.length) c.storage (alignUp c.offset 4)
      (by rw [leBytes_length]; omega)
    rw [leBytes_length] at hr
    rw [hr, fromLeBytes_leBytes, pow256_4, Nat.mod_eq_of_lt hlen]
  rw [h32]
  show Reader.readUint8Elements
      ⟨alignUp c.offset 4 + 4,
        setBytes (setBytes c.storage (alignUp c.offset 4) (leBytes 4 arr.length))
          (alignUp c.offset 4 + 4) (arr.map (fun x => x % 256))⟩ arr.length = _
  rw [readUint8Elements_eq, if_neg (by simp only [setBytes_length]; omega)]
  have hr2 := readBytes_setBytes (arr.map (fun x => x % 256))
    (setBytes c.storage (alignUp c.offset 4) (leBytes 4 arr.length))
    (alignUp c.offset 4 + 4) (by rw [List.length_map, hlS1]; omega)
  rw [List.length_map] at hr2
  rw [hr2, map_mod_eq_self arr 256 ha]

theorem le_alignUp8 (x : Nat) : x ≤ alignUp x 8 := by
  unfold alignUp; omega

theorem roundTrip_u8 (c : Channel) (v : Nat) (hv : v < 256)
    (hb : c.offset + 1 ≤ c.storage.length) :
    Reader.readUint8 ⟨c.offset, (Writer.writeUint8 c v).2.storage⟩
      = (some v, ⟨c.offset + 1, (Writer.writeUint8 c v).2.storage⟩) := by
  rw [writeUint8_eq, if_neg (by omega)]
  show Reader.readUint8 ⟨c.offset, c.storage.set c.offset (v % 256)⟩
      = (some v, ⟨c.offset + 1, c.storage.set c.offset (v % 256)⟩)
  rw [readUint8_eq, if_neg (by simp only [List.length_set]; omega)]
  have hg : (c.storage.set c.offset (v % 256)).getD c.offset 0 = v := by
    rw [getD_set_self _ _ _ (by omega), Nat.mod_eq_of_lt hv]
  simp only [hg]

theorem roundTrip_u32 (c : Channel) (u : Nat) (hu : u < 2 ^ 32)
    (hb : alignUp c.offset 4 + 4 ≤ c.storage.length) :
    Reader.readUint32 ⟨c.offset, (Writer.writeUint32 c u).2.storage⟩
      = (some u, ⟨alignUp c.offset 4 + 4, (Writer.writeUint32 c u).2.storage⟩) := by
  rw [writeUint32_eq, if_neg (by omega)]
  show Reader.readUint32 ⟨c.offset, setBytes c.storage (alignUp c.offset 4) (leBytes 4 u)⟩
      = (some u, ⟨alignUp c.offset 4 + 4,
          setBytes c.storage (alignUp c.offset 4) (leBytes 4 u)⟩)
  rw [readUint32_eq, if_neg (by simp only [setBytes_length]; omega)]
  have hr := readBytes_setBytes (leBytes 4 u) c.storage (alignUp c.offset 4)
    (by rw [leBytes_length]; omega)
  rw [leBytes_length] at hr
  have hv : fromLeBytes (readBytes (setBytes c.storage (alignUp c.offset 4) (leBytes 4 u))
      (alignUp c.offset 4) 4) = u := by
    rw [hr, fromLeBytes_leBytes, pow256_4, Nat.mod_eq_of_lt hu]
  simp only [hv]

theorem roundTrip_i32 (c : Channel) (w : Int) (hw1 : -(2 ^ 31) ≤ w) (hw2 : w < 2 ^ 31)
    (hb : alignUp c.offset 4 + 4 ≤ c.storage.length) :
    Reader.readInt32 ⟨c.offset, (Writer.writeInt32 c w).2.storage⟩
      = (some w, ⟨alignUp c.offset 4 + 4, (Writer.writeInt32 c w).2.storage⟩) := by
  rw [writeInt32_eq, if_neg (by omega)]
  show Reader.readInt32
      ⟨c.offset, setBytes c.storage (alignUp c.offset 4) (leBytes 4 (intToUint32 w))⟩
      = (some w, ⟨alignUp c.offset 4 + 4,
          setBytes c.storage (alignUp c.offset 4) (leBytes 4 (intToUint32 w))⟩)
  rw [readInt32_eq, if_neg (by simp only [setBytes_length]; omega)]
  have hr := readBytes_setBytes (leBytes 4 (intToUint32 w)) c.storage (alignUp c.offset 4)
    (by rw [leBytes_length]; omega)
  rw [leBytes_length] at hr
  have hv : uint32ToInt (fromLeBytes
      (readBytes (setBytes c.storage (alignUp c.offset 4) (leBytes 4 (intToUint32 w)))
        (alignUp c.offset 4) 4)) = w := by
    rw [hr, fromLeBytes_leBytes, pow256_4,
      Nat.mod_eq_of_lt (intToUint32_lt w), uint32ToInt_intToUint32 w hw1 hw2]
  simp only [hv]

theorem roundTrip_f32 (c : Channel) (p : Nat) (hp : p < 2 ^ 32)
    (hb : alignUp c.offset 4 + 4 ≤ c.storage.length) :
    Reader.readFloat32 ⟨c.offset, (Writer.writeFloat32 c p).2.storage⟩
      = (some p, ⟨alignUp c.offset 4 + 4, (Writer.writeFloat32 c p).2.storage⟩) := by
  rw [writeFloat32_eq, if_neg (by omega)]
  show Reader.readFloat32 ⟨c.offset, setBytes c.storage (alignUp c.offset 4) (leBytes 4 p)⟩
      = (some p, ⟨alignUp c.offset 4 + 4,
          setBytes c.storage (alignUp c.offset 4) (leBytes 4 p)⟩)
  rw [readFloat32_eq, if_neg (by simp only [setBytes_length]; omega)]
  have hr := readBytes_setBytes (leBytes 4 p) c.storage (alignUp c.offset 4)
    (by rw [leBytes_length]; omega)
  rw [leBytes_length] at hr
  have hv : fromLeBytes (readBytes (setBytes c.storage (alignUp c.offset 4) (leBytes 4 p))
      (alignUp c.offset 4) 4) = p := by
    rw [hr, fromLeBytes_leBytes, pow256_4, Nat.mod_eq_of_lt hp]
  simp only [hv]

theorem roundTrip_f64 (c : Channel) (q : Nat) (hq : q < 2 ^ 64)
    (hb : alignUp c.offset 8 + 8 ≤ c.storage.length) :
    Reader.readFloat64 ⟨c.offset, (Writer.writeFloat64 c q).2.storage⟩
      = (some q, ⟨alignUp c.offset 8 + 8, (Writer.writeFloat64 c q).2.storage⟩) := by
  rw [writeFloat64_eq, if_neg (by omega)]
  show Reader.readFloat64 ⟨c.offset, setBytes c.storage (alignUp c.offset 8) (leBytes 8 q)⟩
      = (some q, ⟨alignUp c.offset 8 + 8,
          setBytes c.storage (alignUp c.offset 8) (leBytes 8 q)⟩)
  rw [readFloat64_eq, if_neg (by simp only [setBytes_length]; omega)]
  have hr := readBytes_setBytes (leBytes 8 q) c.storage (alignUp c.offset 8)
    (by rw [leBytes_length]; omega)
  rw [leBytes_length] at hr
  have hv : fromLeBytes (readBytes (setBytes c.storage (alignUp c.offset 8) (leBytes 8 q))
      (alignUp c.offset 8) 8) = q := by
    rw [hr, fromLeBytes_leBytes, pow256_8, Nat.mod_eq_of_lt hq]
  simp only [hv]

theorem copyUint32Array_eq_of_le (c : Channel) (arr : List Nat)
    (hb : alignUp c.offset 4 + 4 + arr.length * 4 ≤ c.storage.length) :
    Writer.copyUint32Array c arr =
      (some (), ⟨alignUp c.offset 4 + 4 + arr.length * 4,
        setBytes (setBytes c.storage (alignUp c.offset 4) (leBytes 4 arr.length))
          (alignUp c.offset 4 + 4) (leWords 4 arr)⟩) := by
  unfold Writer.copyUint32Array
  rw [writeUint32_eq, if_neg (by omega)]
  show Writer.copyUint32Elements
      ⟨alignUp c.offset 4 + 4,
        setBytes c.storage (alignUp c.offset 4) (leBytes 4 arr.length)⟩ arr = _
  rw [copyUint32Elements_eq,
    if_neg (by simp only [setBytes_length, alignUp_alignUp4]; omega)]
  simp only [alignUp_alignUp4]

theorem roundTrip_u32Array (c : Channel) (arr : List Nat)
    (ha : ∀ x ∈ arr, x < 2 ^ 32) (hlen : arr.length < 2 ^ 32)
    (hb : alignUp c.offset 4 + 4 + arr.length * 4 ≤ c.storage.length) :
    Reader.readUint32Array ⟨c.offset, (Writer.copyUint32Array c arr).2.storage⟩
      = (some arr, ⟨alignUp c.offset 4 + 4 + arr.length * 4,
          (Writer.copyUint32Array c arr).2.storage⟩) := by
  rw [copyUint32Array_eq_of_le c arr hb]
  unfold Reader.readUint32Array
  have h32 : Reader.readUint32
      ⟨c.offset, setBytes (setBytes c.storage (alignUp c.offset 4) (leBytes 4 arr.length))
        (alignUp c.offset 4 + 4) (leWords 4 arr)⟩
      = (some arr.length,
        ⟨alignUp c.offset 4 + 4,
          setBytes (setBytes c.storage (alignUp c.offset 4) (leBytes 4 arr.length))
            (alignUp c.offset 4 + 4) (leWords 4 arr)⟩) := by
    rw [readUint32_eq, if_neg (by simp only [setBytes_length]; omega)]
    have habove := readBytes_setBytes_above (leWords 4 arr)
      (setBytes c.storage (alignUp c.offset 4) (leBytes 4 arr.length))
      (alignUp c.offset 4) 4 (alignUp c.offset 4 + 4) (by omega)
    rw [habove]
    have hr := readBytes_setBytes (leBytes 4 arr.length) c.storage (alignUp c.offset 4)
      (by rw [leBytes_length]; omega)
    rw [leBytes_length] at hr
    rw [hr, fromLeBytes_leBytes, pow256_4, Nat.mod_eq_of_lt hlen]
  rw [h32]
  show Reader.readUint32Elements
      ⟨alignUp c.offset 4 + 4,
        setBytes (setBytes c.storage (alignUp c.offset 4) (leBytes 4 arr.length))
          (alignUp c.offset 4 + 4) (leWords 4 arr)⟩ arr.length = _
  rw [readUint32Elements_eq,
    if_neg (by simp only [setBytes_length, alignUp_alignUp4]; omega)]
  simp only [alignUp_alignUp4]
  have hw := readWords_setBytes 4 arr
    (setBytes c.storage (alignUp c.offset 4) (leBytes 4 arr.length))
    (alignUp c.offset 4 + 4) (by simp only [setBytes_length]; omega)
  have harr : arr.map (fun x => x % 256 ^ 4) = arr :=
    map_mod_eq_self arr (256 ^ 4)
      (by intro x hx; have h2 := ha x hx; have h3 := pow256_4; omega)
  rw [hw, harr]

theorem copyInt32Array_eq_of_le (c : Channel) (arr : List Int)
    (hb : alignUp c.offset 4 + 4 + arr.length * 4 ≤ c.storage.length) :
    Writer.copyInt32Array c arr =
      (some (), ⟨alignUp c.offset 4 + 4 + arr.length * 4,
        setBytes (setBytes c.storage (alignUp c.offset 4) (leBytes 4 arr.length))
          (alignUp c.offset 4 + 4) (leWords 4 (arr.map intToUint32))⟩) := by
  unfold Writer.copyInt32Array
  rw [writeUint32_eq, if_neg (by omega)]
  show Writer.copyInt32Elements
      ⟨alignUp c.offset 4 + 4,
        setBytes c.storage (alignUp c.offset 4) (leBytes 4 arr.length)⟩ arr = _
  rw [copyInt32Elements_eq,
    if_neg (by simp only [setBytes_length, alignUp_alignUp4]; omega)]
  simp only [alignUp_alignUp4]

theorem map_uint32ToInt_intToUint32 (l : List Int)
    (h : ∀ x ∈ l, -(2 ^ 31) ≤ x ∧ x < 2 ^ 31) :
    (l.map intToUint32).map uint32ToInt = l := by
  induction l with
  | nil => rfl
  | cons a t ih =>
    simp only [List.map_cons]
    rw [uint32ToInt_intToUint32 a (h a (by simp)).1 (h a (by simp)).2,
      ih (fun x hx => h x (by simp [hx]))]

theorem roundTrip_i32Array (c : Channel) (arr : List Int)
    (ha : ∀ x ∈ arr, -(2 ^ 31) ≤ x ∧ x < 2 ^ 31) (hlen : arr.length < 2 ^ 32)
    (hb : alignUp c.offset 4 + 4 + arr.length * 4 ≤ c.storage.length) :
    Reader.readInt32Array ⟨c.offset, (Writer.copyInt32Array c arr).2.storage⟩
      = (some arr, ⟨alignUp c.offset 4 + 4 + arr.length * 4,
          (Writer.copyInt32Array c arr).2.storage⟩) := by
  rw [copyInt32Array_eq_of_le c arr hb]
  unfold Reader.readInt32Array
  have h32 : Reader.readUint32
      ⟨c.offset, setBytes (setBytes c.storage (alignUp c.offset 4) (leBytes 4 arr.length))
        (alignUp c.offset 4 + 4) (leWords 4 (arr.map intToUint32))⟩
      = (some arr.length,
        ⟨alignUp c.offset 4 + 4,
          setBytes (setBytes c.storage (alignUp c.offset 4) (leBytes 4 arr.length))
            (alignUp c.offset 4 + 4) (leWords 4 (arr.map intToUint32))⟩) := by
    rw [readUint32_eq, if_neg (by simp only [setBytes_length]; omega)]
    have habove := readBytes_setBytes_above (leWords 4 (arr.map intToUint32))
      (setBytes c.storage (alignUp c.offset 4) (leBytes 4 arr.length))
      (alignUp c.offset 4) 4 (alignUp c.offset 4 + 4) (by omega)
    rw [habove]
    have hr := readBytes_setBytes (leBytes 4 arr.length) c.storage (alignUp c.offset 4)
      (by rw [leBytes_length]; omega)
    rw [leBytes_length] at hr
    rw [hr, fromLeBytes_leBytes, pow256_4, Nat.mod_eq_of_lt hlen]
  rw [h32]
  show Reader.readInt32Elements
      ⟨alignUp c.offset 4 + 4,
        setBytes (setBytes c.storage (alignUp c.offset 4) (leBytes 4 arr.length))
          (alignUp c.offset 4 + 4) (leWords 4 (arr.map intToUint32))⟩ arr.length = _
  rw [readInt32Elements_eq,
    if_neg (by simp only [setBytes_length, alignUp_alignUp4]; omega)]
  simp only [alignUp_alignUp4]
  have hw := readWords_setBytes 4 (arr.map intToUint32)
    (setBytes c.storage (alignUp c.offset 4) (leBytes 4 arr.length))
    (alignUp c.offset 4 + 4)
    (by simp only [setBytes_length, List.length_map]; omega)
  rw [List.length_map] at hw
  have hmod : (arr.map intToUint32).map (fun x => x % 256 ^ 4) = arr.map intToUint32 :=
    map_mod_eq_self (arr.map intToUint32) (256 ^ 4)
      (by
        intro x hx
        rw [List.mem_map] at hx
        obtain ⟨y, _, hy⟩ := hx
        have h2 := intToUint32_lt y
        have h3 := pow256_4
        omega)
  rw [hw, hmod, map_uint32ToInt_intToUint32 arr ha]

theorem copyFloat32Array_eq_of_le (c : Channel) (arr : List Nat)
    (hb : alignUp c.offset 4 + 4 + arr.length * 4 ≤ c.storage.length) :
    Writer.copyFloat32Array c arr =
      (some (), ⟨alignUp c.offset 4 + 4 + arr.length * 4,
        setBytes (setBytes c.storage (alignUp c.offset 4) (leBytes 4 arr.length))
          (alignUp c.offset 4 + 4) (leWords 4 arr)⟩) := by
  unfold Writer.copyFloat32Array
  rw [writeUint32_eq, if_neg (by omega)]
  show Writer.copyFloat32Elements
      ⟨alignUp c.offset 4 + 4,
        setBytes c.storage (alignUp c.offset 4) (leBytes 4 arr.length)⟩ arr = _
  rw [copyFloat32Elements_eq,
    if_neg (by simp only [setBytes_length, alignUp_alignUp4]; omega)]
  simp only [alignUp_alignUp4]

theorem roundTrip_f32Array (c : Channel) (arr : List Nat)
    (ha : ∀ x ∈ arr, x < 2 ^ 32) (hlen : arr.length < 2 ^ 32)
    (hb : alignUp c.offset 4 + 4 + arr.length * 4 ≤ c.storage.length) :
    Reader.readFloat32Array ⟨c.offset, (Writer.copyFloat32Array c arr).2.storage⟩
      = (some arr, ⟨alignUp c.offset 4 + 4 + arr.length * 4,
          (Writer.copyFloat32Array c arr).2.storage⟩) := by
  rw [copyFloat32Array_eq_of_le c arr hb]
  unfold Reader.readFloat32Array
  have h32 : Reader.readUint32
      ⟨c.offset, setBytes (setBytes c.storage (alignUp c.offset 4) (leBytes 4 arr.length))
        (alignUp c.offset 4 + 4) (leWords 4 arr)⟩
      = (some arr.length,
        ⟨alignUp c.offset 4 + 4,
          setBytes (setBytes c.storage (alignUp c.offset 4) (leBytes 4 arr.length))
            (alignUp c.offset 4 + 4) (leWords 4 arr)⟩) := by
    rw [readUint32_eq, if_neg (by simp only [setBytes_length]; omega)]
    have habove := readBytes_setBytes_above (leWords 4 arr)
      (setBytes c.storage (alignUp c.offset 4) (leBytes 4 arr.length))
      (alignUp c.offset 4) 4 (alignUp c.offset 4 + 4) (by omega)
    rw [habove]
    have hr := readBytes_setBytes (leBytes 4 arr.length) c.storage (alignUp c.offset 4)
      (by rw [leBytes_length]; omega)
    rw [leBytes_length] at hr
    rw [hr, fromLeBytes_leBytes, pow256_4, Nat.mod_eq_of_lt hlen]
  rw [h32]
  show Reader.readFloat32Elements
      ⟨alignUp c.offset 4 + 4,
        setBytes (setBytes c.storage (alignUp c.offset 4) (leBytes 4 arr.length))
          (alignUp c.offset 4 + 4) (leWords 4 arr)⟩ arr.length = _
  rw [readFloat32Elements_eq,
    if_neg (by simp only [setBytes_length, alignUp_alignUp4]; omega)]
  simp only [alignUp_alignUp4]
  have hw := readWords_setBytes 4 arr
    (setBytes c.storage (alignUp c.offset 4) (leBytes 4 arr.length))
    (alignUp c.offset 4 + 4) (by simp only [setBytes_length]; omega)
  have harr : arr.map (fun x => x % 256 ^ 4) = arr :=
    map_mod_eq_self arr (256 ^ 4)
      (by intro x hx; have h2 := ha x hx; have h3 := pow256_4; omega)
  rw [hw, harr]

theorem copyFloat64Array_eq_of_le (c : Channel) (arr : List Nat)
    (hb : alignUp (alignUp c.offset 4 + 4) 8 + arr.length * 8 ≤ c.storage.length) :
    Writer.copyFloat64Array c arr =
      (some (), ⟨alignUp (alignUp c.offset 4 + 4) 8 + arr.length * 8,
        setBytes (setBytes c.storage (alignUp c.offset 4) (leBytes 4 arr.length))
          (alignUp (alignUp c.offset 4 + 4) 8) (leWords 8 arr)⟩) := by
  have he := le_alignUp8 (alignUp c.offset 4 + 4)
  unfold Writer.copyFloat64Array
  rw [writeUint32_eq, if_neg (by omega)]
  show Writer.copyFloat64Elements
      ⟨alignUp c.offset 4 + 4,
        setBytes c.storage (alignUp c.offset 4) (leBytes 4 arr.length)⟩ arr = _
  rw [copyFloat64Elements_eq, if_neg (by simp only [setBytes_length]; omega)]

theorem roundTrip_f64Array (c : Channel) (arr : List Nat)
    (ha : ∀ x ∈ arr, x < 2 ^ 64) (hlen : arr.length < 2 ^ 32)
    (hb : alignUp (alignUp c.offset 4 + 4) 8 + arr.length * 8 ≤ c.storage.length) :
    Reader.readFloat64Array ⟨c.offset, (Writer.copyFloat64Array c arr).2.storage⟩
      = (some arr, ⟨alignUp (alignUp c.offset 4 + 4) 8 + arr.length * 8,
          (Writer.copyFloat64Array c arr).2.storage⟩) := by
  have he := le_alignUp8 (alignUp c.offset 4 + 4)
  rw [copyFloat64Array_eq_of_le c arr hb]
  unfold Reader.readFloat64Array
  have h32 : Reader.readUint32
      ⟨c.offset, setBytes (setBytes c.storage (alignUp c.offset 4) (leBytes 4 arr.length))
        (alignUp (alignUp c.offset 4 + 4) 8) (leWords 8 arr)⟩
      = (some arr.length,
        ⟨alignUp c.offset 4 + 4,
          setBytes (setBytes c.storage (alignUp c.offset 4) (leBytes 4 arr.length))
            (alignUp (alignUp c.offset 4 + 4) 8) (leWords 8 arr)⟩) := by
    rw [readUint32_eq, if_neg (by simp only [setBytes_length]; omega)]
    have habove := readBytes_setBytes_above (leWords 8 arr)
      (setBytes c.storage (alignUp c.offset 4) (leBytes 4 arr.length))
      (alignUp c.offset 4) 4 (alignUp (alignUp c.offset 4 + 4) 8) (by omega)
    rw [habove]
    have hr := readBytes_setBytes (leBytes 4 arr.length) c.storage (alignUp c.offset 4)
      (by rw [leBytes_length]; omega)
    rw [leBytes_length] at hr
    rw [hr, fromLeBytes_leBytes, pow256_4, Nat.mod_eq_of_lt hlen]
  rw [h32]
  show Reader.readFloat64Elements
      ⟨alignUp c.offset 4 + 4,
        setBytes (setBytes c.storage (alignUp c.offset 4) (leBytes 4 arr.length))
          (alignUp (alignUp c.offset 4 + 4) 8) (leWords 8 arr)⟩ arr.length = _
  rw [readFloat64Elements_eq, if_neg (by simp only [setBytes_length]; omega)]
  have hw := readWords_setBytes 8 arr
    (setBytes c.storage (alignUp c.offset 4) (leBytes 4 arr.length))
    (alignUp (alignUp c.offset 4 + 4) 8) (by simp only [setBytes_length]; omega)
  have harr : arr.map (fun x => x % 256 ^ 8) = arr :=
    map_mod_eq_self arr (256 ^ 8)
      (by intro x hx; have h2 := ha x hx; have h3 := pow256_8; omega)
  rw [hw, harr]

/-! ### C4 — round trips, C5 — array encoding -/

/-- C4: for every supported scalar type (u8, u32, i32, f32, f64 — the float
cases stated on the 32/64-bit patterns, i.e. the values exactly representable
at that width) and every supported array type, an in-range value written by a
Writer at cursor `c.offset` and then read by a Reader over the same storage
starting from the same cursor comes back equal, and the reader applies the
identical alignment, ending at the same cursor as the writer. -/
theorem claim4_roundTrip (c : Channel) (v u p q : Nat) (w : Int)
    (a8 u32s f32s f64s : List Nat) (i32s : List Int)
    (hv : v < 256) (hu : u < 2 ^ 32) (hp : p < 2 ^ 32) (hq : q < 2 ^ 64)
    (hw1 : -(2 ^ 31) ≤ w) (hw2 : w < 2 ^ 31)
    (ha8 : ∀ x ∈ a8, x < 256) (hu32 : ∀ x ∈ u32s, x < 2 ^ 32)
    (hf32 : ∀ x ∈ f32s, x < 2 ^ 32) (hf64 : ∀ x ∈ f64s, x < 2 ^ 64)
    (hi32 : ∀ x ∈ i32s, -(2 ^ 31) ≤ x ∧ x < 2 ^ 31)
    (hl8 : a8.length < 2 ^ 32) (hlu : u32s.length < 2 ^ 32)
    (hlf32 : f32s.length < 2 ^ 32) (hlf64 : f64s.length < 2 ^ 32)
    (hli : i32s.length < 2 ^ 32)
    (hb1 : c.offset + 1 ≤ c.storage.length)
    (hb4 : alignUp c.offset 4 + 4 ≤ c.storage.length)
    (hb8 : alignUp c.offset 8 + 8 ≤ c.storage.length)
    (hba8 : alignUp c.offset 4 + 4 + a8.length ≤ c.storage.length)
    (hbau : alignUp c.offset 4 + 4 + u32s.length * 4 ≤ c.storage.length)
    (hbaf32 : alignUp c.offset 4 + 4 + f32s.length * 4 ≤ c.storage.length)
    (hbai : alignUp c.offset 4 + 4 + i32s.length * 4 ≤ c.storage.length)
    (hbaf64 : alignUp (alignUp c.offset 4 + 4) 8 + f64s.length * 8 ≤ c.storage.length) :
    Reader.readUint8 ⟨c.offset, (Writer.writeUint8 c v).2.storage⟩
      = (some v, ⟨c.offset + 1, (Writer.writeUint8 c v).2.storage⟩)
    ∧ Reader.readUint32 ⟨c.offset, (Writer.writeUint32 c u).2.storage⟩
      = (some u, ⟨alignUp c.offset 4 + 4, (Writer.writeUint32 c u).2.storage⟩)
    ∧ Reader.readInt32 ⟨c.offset, (Writer.writeInt32 c w).2.storage⟩
      = (some w, ⟨alignUp c.offset 4 + 4, (Writer.writeInt32 c w).2.storage⟩)
    ∧ Reader.readFloat32 ⟨c.offset, (Writer.writeFloat32 c p).2.storage⟩
      = (some p, ⟨alignUp c.offset 4 + 4, (Writer.writeFloat32 c p).2.storage⟩)
    ∧ Reader.readFloat64 ⟨c.offset, (Writer.writeFloat64 c q).2.storage⟩
      = (some q, ⟨alignUp c.offset 8 + 8, (Writer.writeFloat64 c q).2.storage⟩)
    ∧ Reader.readUint8Array ⟨c.offset, (Writer.copyUint8Array c a8).2.storage⟩
      = (some a8, ⟨alignUp c.offset 4 + 4 + a8.length,
          (Writer.copyUint8Array c a8).2.storage⟩)
    ∧ Reader.readUint32Array ⟨c.offset, (Writer.copyUint32Array c u32s).2.storage⟩
      = (some u32s, ⟨alignUp c.offset 4 + 4 + u32s.length * 4,
          (Writer.copyUint32Array c u32s).2.storage⟩)
    ∧ Reader.readInt32Array ⟨c.offset, (Writer.copyInt32Array c i32s).2.storage⟩
      = (some i32s, ⟨alignUp c.offset 4 + 4 + i32s.length * 4,
          (Writer.copyInt32Array c i32s).2.storage⟩)
    ∧ Reader.readFloat32Array ⟨c.offset, (Writer.copyFloat32Array c f32s).2.storage⟩
      = (some f32s, ⟨alignUp c.offset 4 + 4 + f32s.length * 4,
          (Writer.copyFloat32Array c f32s).2.storage⟩)
    ∧ Reader.readFloat64Array ⟨c.offset, (Writer.copyFloat64Array c f64s).2.storage⟩
      = (some f64s, ⟨alignUp (alignUp c.offset 4 + 4) 8 + f64s.length * 8,
          (Writer.copyFloat64Array c f64s).2.storage⟩) :=
  ⟨roundTrip_u8 c v hv hb1,
   roundTrip_u32 c u hu hb4,
   roundTrip_i32 c w hw1 hw2 hb4,
   roundTrip_f32 c p hp hb4,
   roundTrip_f64 c q hq hb8,
   roundTrip_u8Array c a8 ha8 hl8 hba8,
   roundTrip_u32Array c u32s hu32 hlu hbau,
   roundTrip_i32Array c i32s hi32 hli hbai,
   roundTrip_f32Array c f32s hf32 hlf32 hbaf32,
   roundTrip_f64Array c f64s hf64 hlf64 hbaf64⟩

/-- C4 witness: byte 42 written on a fresh 32-byte channel reads back as 42
with matching cursors. -/
theorem claim4_roundTrip_witness :
    Reader.readUint8 ⟨0, (Writer.writeUint8 ⟨0, List.replicate 32 0⟩ 42).2.storage⟩
      = (some 42, ⟨1, (Writer.writeUint8 ⟨0, List.replicate 32 0⟩ 42).2.storage⟩) :=
  (claim4_roundTrip ⟨0, List.replicate 32 0⟩ 42 7 3 9 (-5)
    [1, 2] [3, 4] [5, 6] [7, 8] [-1, 2]
    (by norm_num) (by norm_num) (by norm_num) (by norm_num) (by norm_num) (by norm_num)
    (by decide) (by decide) (by decide) (by decide) (by decide)
    (by decide) (by decide) (by decide) (by decide) (by decide)
    (by decide) (by decide) (by decide) (by decide) (by decide)
    (by decide) (by decide) (by decide)).1

/-- C5: for every supported array type and every array `v` (the empty array
included), `copyArray` writes a 4-byte u32 length prefix equal to `v.length`
at the cursor aligned per the 4-byte rule, followed by the elements, and a
subsequent `readArray` over the same bytes returns a view whose length equals
the prefix and whose elements equal `v`; in the zero-length case a 4-byte
prefix of 0 is still written and an empty view is returned. -/
theorem claim5_arrayEncoding (c : Channel)
    (a8 u32s f32s f64s : List Nat) (i32s : List Int)
    (ha8 : ∀ x ∈ a8, x < 256) (hu32 : ∀ x ∈ u32s, x < 2 ^ 32)
    (hf32 : ∀ x ∈ f32s, x < 2 ^ 32) (hf64 : ∀ x ∈ f64s, x < 2 ^ 64)
    (hi32 : ∀ x ∈ i32s, -(2 ^ 31) ≤ x ∧ x < 2 ^ 31)
    (hl8 : a8.length < 2 ^ 32) (hlu : u32s.length < 2 ^ 32)
    (hlf32 : f32s.length < 2 ^ 32) (hlf64 : f64s.length < 2 ^ 32)
    (hli : i32s.length < 2 ^ 32)
    (hb4 : alignUp c.offset 4 + 4 ≤ c.storage.length)
    (hba8 : alignUp c.offset 4 + 4 + a8.length ≤ c.storage.length)
    (hbau : alignUp c.offset 4 + 4 + u32s.length * 4 ≤ c.storage.length)
    (hbaf32 : alignUp c.offset 4 + 4 + f32s.length * 4 ≤ c.storage.length)
    (hbai : alignUp c.offset 4 + 4 + i32s.length * 4 ≤ c.storage.length)
    (hbaf64 : alignUp (alignUp c.offset 4 + 4) 8 + f64s.length * 8 ≤ c.storage.length) :
    readBytes (Writer.copyUint8Array c a8).2.storage (alignUp c.offset 4) 4
      = leBytes 4 a8.length
    ∧ (Reader.readUint8Array ⟨c.offset, (Writer.copyUint8Array c a8).2.storage⟩).1
      = some a8
    ∧ ((Reader.readUint8Array
        ⟨c.offset, (Writer.copyUint8Array c a8).2.storage⟩).1.getD []).length
      = a8.length
    ∧ readBytes (Writer.copyUint8Array c []).2.storage (alignUp c.offset 4) 4
      = leBytes 4 0
    ∧ (Reader.readUint8Array ⟨c.offset, (Writer.copyUint8Array c []).2.storage⟩).1
      = some []
    ∧ readBytes (Writer.copyUint32Array c u32s).2.storage (alignUp c.offset 4) 4
      = leBytes 4 u32s.length
    ∧ (Reader.readUint32Array ⟨c.offset, (Writer.copyUint32Array c u32s).2.storage⟩).1
      = some u32s
    ∧ readBytes (Writer.copyInt32Array c i32s).2.storage (alignUp c.offset 4) 4
      = leBytes 4 i32s.length
    ∧ (Reader.readInt32Array ⟨c.offset, (Writer.copyInt32Array c i32s).2.storage⟩).1
      = some i32s
    ∧ readBytes (Writer.copyFloat32Array c f32s).2.storage (alignUp c.offset 4) 4
      = leBytes 4 f32s.length
    ∧ (Reader.readFloat32Array ⟨c.offset, (Writer.copyFloat32Array c f32s).2.storage⟩).1
      = some f32s
    ∧ readBytes (Writer.copyFloat64Array c f64s).2.storage (alignUp c.offset 4) 4
      = leBytes 4 f64s.length
    ∧ (Reader.readFloat64Array ⟨c.offset, (Writer.copyFloat64Array c f64s).2.storage⟩).1
      = some f64s := by
  have he := le_alignUp8 (alignUp c.offset 4 + 4)
  refine ⟨?_, ?_, ?_, ?_, ?_, ?_, ?_, ?_, ?_, ?_, ?_, ?_, ?_⟩
  · rw [copyUint8Array_eq_of_le c a8 hba8]
    show readBytes
        (setBytes (setBytes c.storage (alignUp c.offset 4) (leBytes 4 a8.length))
          (alignUp c.offset 4 + 4) (a8.map (fun x => x % 256)))
        (alignUp c.offset 4) 4 = leBytes 4 a8.length
    rw [readBytes_setBytes_above (a8.map (fun x => x % 256))
      (setBytes c.storage (alignUp c.offset 4) (leBytes 4 a8.length))
      (alignUp c.offset 4) 4 (alignUp c.offset 4 + 4) (by omega)]
    have hr := readBytes_setBytes (leBytes 4 a8.length) c.storage (alignUp c.offset 4)
      (by rw [leBytes_length]; omega)
    rw [leBytes_length] at hr
    exact hr
  · rw [roundTrip_u8Array c a8 ha8 hl8 hba8]
  · rw [roundTrip_u8Array c a8 ha8 hl8 hba8]
    simp
  · rw [copyUint8Array_eq_of_le c [] (by simpa using hb4)]
    show readBytes
        (setBytes (setBytes c.storage (alignUp c.offset 4) (leBytes 4 0))
          (alignUp c.offset 4 + 4) [])
        (alignUp c.offset 4) 4 = leBytes 4 0
    have hr := readBytes_setBytes (leBytes 4 0) c.storage (alignUp c.offset 4)
      (by rw [leBytes_length]; omega)
    rw [leBytes_length] at hr
    exact hr
  · rw [roundTrip_u8Array c [] (by simp) (by norm_num) (by simpa using hb4)]
  · rw [copyUint32Array_eq_of_le c u32s hbau]
    show readBytes
        (setBytes (setBytes c.storage (alignUp c.offset 4) (leBytes 4 u32s.length))
          (alignUp c.offset 4 + 4) (leWords 4 u32s))
        (alignUp c.offset 4) 4 = leBytes 4 u32s.length
    rw [readBytes_setBytes_above (leWords 4 u32s)
      (setBytes c.storage (alignUp c.offset 4) (leBytes 4 u32s.length))
      (alignUp c.offset 4) 4 (alignUp c.offset 4 + 4) (by omega)]
    have hr := readBytes_setBytes (leBytes 4 u32s.length) c.storage (alignUp c.offset 4)
      (by rw [leBytes_length]; omega)
    rw [leBytes_length] at hr
    exact hr
  · rw [roundTrip_u32Array c u32s hu32 hlu hbau]
  · rw [copyInt32Array_eq_of_le c i32s hbai]
    show readBytes
        (setBytes (setBytes c.storage (alignUp c.offset 4) (leBytes 4 i32s.length))
          (alignUp c.offset 4 + 4) (leWords 4 (i32s.map intToUint32)))
        (alignUp c.offset 4) 4 = leBytes 4 i32s.length
    rw [readBytes_setBytes_above (leWords 4 (i32s.map intToUint32))
      (setBytes c.storage (alignUp c.offset 4) (leBytes 4 i32s.length))
      (alignUp c.offset 4) 4 (alignUp c.offset 4 + 4) (by omega)]
    have hr := readBytes_setBytes (leBytes 4 i32s.length) c.storage (alignUp c.offset 4)
      (by rw [leBytes_length]; omega)
    rw [leBytes_length] at hr
    exact hr
  · rw [roundTrip_i32Array c i32s hi32 hli hbai]
  · rw [copyFloat32Array_eq_of_le c f32s hbaf32]
    show readBytes
        (setBytes (setBytes c.storage (alignUp c.offset 4) (leBytes 4 f32s.length))
          (alignUp c.offset 4 + 4) (leWords 4 f32s))
        (alignUp c.offset 4) 4 = leBytes 4 f32s.length
    rw [readBytes_setBytes_above (leWords 4 f32s)
      (setBytes c.storage (alignUp c.offset 4) (leBytes 4 f32s.length))
      (alignUp c.offset 4) 4 (alignUp c.offset 4 + 4) (by omega)]
    have hr := readBytes_setBytes (leBytes 4 f32s.length) c.storage (alignUp c.offset 4)
      (by rw [leBytes_length]; omega)
    rw [leBytes_length] at hr
    exact hr
  · rw [roundTrip_f32Array c f32s hf32 hlf32 hbaf32]
  · rw [copyFloat64Array_eq_of_le c f64s hbaf64]
    show readBytes
        (setBytes (setBytes c.storage (alignUp c.offset 4) (leBytes 4 f64s.length))
          (alignUp (alignUp c.offset 4 + 4) 8) (leWords 8 f64s))
        (alignUp c.offset 4) 4 = leBytes 4 f64s.length
    rw [readBytes_setBytes_above (leWords 8 f64s)
      (setBytes c.storage (alignUp c.offset 4) (leBytes 4 f64s.length))
      (alignUp c.offset 4) 4 (alignUp (alignUp c.offset 4 + 4) 8) (by omega)]
    have hr := readBytes_setBytes (leBytes 4 f64s.length) c.storage (alignUp c.offset 4)
      (by rw [leBytes_length]; omega)
    rw [leBytes_length] at hr
    exact hr
  · rw [roundTrip_f64Array c f64s hf64 hlf64 hbaf64]

/-- C5 witness: the zero-length array still writes a 4-byte length prefix of 0
and reads back as the empty view. -/
theorem claim5_arrayEncoding_witness :
    (Reader.readUint8Array
      ⟨0, (Writer.copyUint8Array ⟨0, List.replicate 32 0⟩ []).2.storage⟩).1
      = some [] :=
  (claim5_arrayEncoding ⟨0, List.replicate 32 0⟩ [1, 2] [3, 4] [5, 6] [7, 8] [-1, 2]
    (by decide) (by decide) (by decide) (by decide) (by decide)
    (by decide) (by decide) (by decide) (by decide) (by decide)
    (by decide) (by decide) (by decide) (by decide) (by decide)
    (by decide)).2.2.2.2.1

/-! ### Module-side channel lifecycle (interop.zig) -/

inductive ConduitKind where
  | reader
  | writer
  deriving DecidableEq, Repr

/-- A module-side conduit bound to a channel storage allocation.  The Zig
conduit type itself (conduit.zig) is not under src/; what the claims need is
its mode (reader or writer), the storage it is bound to, and its cursor. -/
structure ZigConduit where
  kind : ConduitKind
  baseAddr : Nat
  offset : Nat
  deriving DecidableEq, Repr

/-- `reset()` on a module-side conduit: cursor back to 0. -/
def ZigConduit.reset (z : ZigConduit) : ZigConduit := { z with offset := 0 }

/-- Modelled from the spec: `conduit.Reader.from(storage)` (conduit.zig is not
under src/) — "constructs a fresh … Reader … bound to that storage", cursor 0. -/
def zigReaderFrom (addr : Nat) : ZigConduit := ⟨ConduitKind.reader, addr, 0⟩

/-- Modelled from the spec: `conduit.Writer.from(storage)` (conduit.zig is not
under src/) — "constructs a fresh Writer … bound to that storage", cursor 0. -/
def zigWriterFrom (addr : Nat) : ZigConduit := ⟨ConduitKind.writer, addr, 0⟩

/-- The module-side allocator state: live allocations (base address, size in
u64 units) and a monotonically growing fresh-address source. -/
structure Heap where
  live : List (Nat × Nat)
  next : Nat
  deriving DecidableEq, Repr

/-- `std.heap.wasm_allocator.alloc(u64, n)`: fresh storage at a fresh base
address, recorded live.  The model never reuses addresses, which suffices for
the freshness/release facts claimed. -/
def Heap.alloc (h : Heap) (n : Nat) : Nat × Heap :=
  (h.next, ⟨(h.next, n) :: h.live, h.next + 8 * n + 8⟩)

/-- `std.heap.wasm_allocator.free(storage)`: the allocation at `addr` stops
being live. -/
def Heap.free (h : Heap) (addr : Nat) : Heap :=
  ⟨h.live.filter (fun p => p.1 != addr), h.next⟩

/-- Addresses of live allocations stay below the fresh-address source. -/
def HeapWF (h : Heap) : Prop := ∀ p ∈ h.live, p.1 < h.next

/-- The module-side session state of interop.zig: the static `input`/`output`
conduits and their storages, plus the allocator. -/
structure InteropState where
  inputStorage : Option (Nat × Nat)
  outputStorage : Option (Nat × Nat)
  input : ZigConduit
  output : ZigConduit
  heap : Heap
  deriving DecidableEq, Repr

/-- `allocateInputChannel(sizeInBytes)` from interop.zig: `none` models the
fatal `Error.panicFormat` diagnostic for a non-positive size; otherwise round
the size up to an 8-byte multiple (`(size + 7) & ~7`), free the previous input
storage if any, allocate fresh storage, bind the static `input` conduit to it
as a fresh Reader, and return the storage base address. -/
def allocateInputChannel (st : InteropState) (sizeInBytes : Int) :
    Option (Nat × InteropState) :=
  if sizeInBytes ≤ 0 then none
  else
    let size := sizeInBytes.toNat
    let aligned := alignUp size 8
    let sizeInU64s := aligned / 8
    let heap1 := match st.inputStorage with
      | some s => st.heap.free s.1
      | none => st.heap
    let r := heap1.alloc sizeInU64s
    some (r.1, { st with
      inputStorage := some (r.1, sizeInU64s),
      input := zigReaderFrom r.1,
      heap := r.2 })

/-- `allocateOutputChannel(sizeInBytes)` from interop.zig: as for the input
channel, but the static `output` conduit is bound as a fresh Writer. -/
def allocateOutputChannel (st : InteropState) (sizeInBytes : Int) :
    Option (Nat × InteropState) :=
  if sizeInBytes ≤ 0 then none
  else
    let size := sizeInBytes.toNat
    let aligned := alignUp size 8
    let sizeInU64s := aligned / 8
    let heap1 := match st.outputStorage with
      | some s => st.heap.free s.1
      | none => st.heap
    let r := heap1.alloc sizeInU64s
    some (r.1, { st with
      outputStorage := some (r.1, sizeInU64s),
      output := zigWriterFrom r.1,
      heap := r.2 })

/-- `getInput()` from interop.zig: reset the static input conduit's cursor to
0 and return it. -/
def zigGetInput (st : InteropState) : ZigConduit × InteropState :=
  let z := st.input.reset
  (z, { st with input := z })

/-- `getOutput()` from interop.zig: reset the static output conduit's cursor
to 0 and return it. -/
def zigGetOutput (st : InteropState) : ZigConduit × InteropState :=
  let z := st.output.reset
  (z, { st with output := z })

/-- `getInput` from the host-side interop.ts: return the (cached) input
Writer after resetting its cursor to 0. -/
def hostGetInput (c : Channel) : Channel := c.reset

/-- `getOutput` from the host-side interop.ts: return the (cached) output
Reader after resetting its cursor to 0. -/
def hostGetOutput (c : Channel) : Channel := c.reset

/-! ### C6 — channel allocation, C7 — reset on retrieval -/

/-- C6 counterexample: claim C6 says allocateChannel "constructs a fresh
Writer (input role) or Reader (output role)"; on the module side the code does
the opposite — `allocateInputChannel` binds the static input conduit as a
Reader (`conduit.Reader.from`) and `allocateOutputChannel` binds the output
conduit as a Writer, as the module reads its input and writes its output. -/
theorem claim6_counterexample :
    ((allocateInputChannel ⟨none, none, zigReaderFrom 0, zigWriterFrom 0, ⟨[], 8⟩⟩ 64).map
      (fun r => r.2.input.kind)) = some ConduitKind.reader
    ∧ ((allocateOutputChannel ⟨none, none, zigReaderFrom 0, zigWriterFrom 0, ⟨[], 8⟩⟩ 64).map
      (fun r => r.2.output.kind)) = some ConduitKind.writer
    ∧ ConduitKind.reader ≠ ConduitKind.writer := by
  refine ⟨rfl, rfl, by decide⟩

/-- C6 (amended): `allocateInputChannel`/`allocateOutputChannel` fail with a
fatal (non-recoverable) diagnostic for every `sizeInBytes ≤ 0`; otherwise they
round the size up to a multiple of 8 bytes, release the previous allocation
for that role if one exists, allocate fresh storage, bind the role's static
conduit to it as a fresh Reader (input role) or Writer (output role) with
cursor 0, leave the other role untouched, and return the new storage's base
address as an integer. -/
theorem claim6_allocateChannel_amended (st : InteropState) (sz : Int)
    (hwf : HeapWF st.heap) :
    (sz ≤ 0 → allocateInputChannel st sz = none ∧ allocateOutputChannel st sz = none)
    ∧ (0 < sz →
        alignUp sz.toNat 8 % 8 = 0
        ∧ sz.toNat ≤ alignUp sz.toNat 8
        ∧ alignUp sz.toNat 8 < sz.toNat + 8
        ∧ (∀ a st', allocateInputChannel st sz = some (a, st') →
            st'.input = zigReaderFrom a
            ∧ st'.inputStorage = some (a, alignUp sz.toNat 8 / 8)
            ∧ (a, alignUp sz.toNat 8 / 8) ∈ st'.heap.live
            ∧ st'.output = st.output
            ∧ st'.outputStorage = st.outputStorage
            ∧ (∀ s, st.inputStorage = some s → s ∈ st.heap.live →
                ∀ m, (s.1, m) ∉ st'.heap.live))
        ∧ (∀ a st', allocateOutputChannel st sz = some (a, st') →
            st'.output = zigWriterFrom a
            ∧ st'.outputStorage = some (a, alignUp sz.toNat 8 / 8)
            ∧ (a, alignUp sz.toNat 8 / 8) ∈ st'.heap.live
            ∧ st'.input = st.input
            ∧ st'.inputStorage = st.inputStorage
            ∧ (∀ s, st.outputStorage = some s → s ∈ st.heap.live →
                ∀ m, (s.1, m) ∉ st'.heap.live))) := by
  constructor
  · intro hle
    constructor <;> simp [allocateInputChannel, allocateOutputChannel, hle]
  · intro hpos
    have hne : ¬ (sz ≤ 0) := by omega
    refine ⟨by unfold alignUp; omega, by unfold alignUp; omega, by unfold alignUp; omega,
      ?_, ?_⟩
    · intro a st' heq
      rcases hst : st.inputStorage with _ | s
      · simp only [allocateInputChannel, if_neg hne, hst, Heap.alloc,
          Option.some.injEq, Prod.mk.injEq] at heq
        obtain ⟨ha, hst'⟩ := heq
        subst hst'
        refine ⟨by rw [ha], by rw [ha], by rw [ha]; exact List.mem_cons_self _ _,
          rfl, rfl, ?_⟩
        intro s hs
        exact absurd hs (by simp)
      · simp only [allocateInputChannel, if_neg hne, hst, Heap.alloc,
          Option.some.injEq, Prod.mk.injEq] at heq
        obtain ⟨ha, hst'⟩ := heq
        subst hst'
        refine ⟨by rw [ha], by rw [ha], by rw [ha]; exact List.mem_cons_self _ _,
          rfl, rfl, ?_⟩
        intro s' hs' hmem m hcontra
        have hss : s = s' := by injection hs'
        subst hss
        have hlt := hwf s hmem
        simp only [Heap.free, List.mem_cons, List.mem_filter, Prod.mk.injEq] at hcontra
        rcases hcontra with ⟨h1, _⟩ | ⟨_, h2⟩
        · omega
        · simp at h2
    · intro a st' heq
      rcases hst : st.outputStorage with _ | s
      · simp only [allocateOutputChannel, if_neg hne, hst, Heap.alloc,
          Option.some.injEq, Prod.mk.injEq] at heq
        obtain ⟨ha, hst'⟩ := heq
        subst hst'
        refine ⟨by rw [ha], by rw [ha], by rw [ha]; exact List.mem_cons_self _ _,
          rfl, rfl, ?_⟩
        intro s hs
        exact absurd hs (by simp)
      · simp only [allocateOutputChannel, if_neg hne, hst, Heap.alloc,
          Option.some.injEq, Prod.mk.injEq] at heq
        obtain ⟨ha, hst'⟩ := heq
        subst hst'
        refine ⟨by rw [ha], by rw [ha], by rw [ha]; exact List.mem_cons_self _ _,
          rfl, rfl, ?_⟩
        intro s' hs' hmem m hcontra
        have hss : s = s' := by injection hs'
        subst hss
        have hlt := hwf s hmem
        simp only [Heap.free, List.mem_cons, List.mem_filter, Prod.mk.injEq] at hcontra
        rcases hcontra with ⟨h1, _⟩ | ⟨_, h2⟩
        · omega
        · simp at h2

/-- C6 witness: allocating a 60-byte input channel over a session that already
holds an input allocation at address 8 releases it, rounds the size to 64
bytes (8 u64s), installs a fresh Reader at the fresh address 48 (cursor 0)
and returns that address. -/
theorem claim6_allocateChannel_amended_witness :
    allocateInputChannel
        ⟨some (8, 4), none, zigReaderFrom 8, zigWriterFrom 0, ⟨[(8, 4)], 48⟩⟩ 60
      = some (48, ⟨some (48, 8), none, zigReaderFrom 48, zigWriterFrom 0,
          ⟨[(48, 8)], 48 + 8 * 8 + 8⟩⟩)
    ∧ (⟨some (48, 8), none, zigReaderFrom 48, zigWriterFrom 0,
        ⟨[(48, 8)], 48 + 8 * 8 + 8⟩⟩ : InteropState).input = zigReaderFrom 48
    ∧ ∀ m, ((8, m) : Nat × Nat) ∉ (⟨some (48, 8), none, zigReaderFrom 48,
        zigWriterFrom 0, ⟨[(48, 8)], 48 + 8 * 8 + 8⟩⟩ : InteropState).heap.live := by
  have halloc : allocateInputChannel
      ⟨some (8, 4), none, zigReaderFrom 8, zigWriterFrom 0, ⟨[(8, 4)], 48⟩⟩ 60
      = some (48, ⟨some (48, 8), none, zigReaderFrom 48, zigWriterFrom 0,
          ⟨[(48, 8)], 48 + 8 * 8 + 8⟩⟩) := by decide
  have h := (claim6_allocateChannel_amended
    ⟨some (8, 4), none, zigReaderFrom 8, zigWriterFrom 0, ⟨[(8, 4)], 48⟩⟩ 60
    (by intro p hp; simp at hp; subst hp; decide)).2 (by decide)
  have h2 := h.2.2.2.1 48 _ halloc
  exact ⟨halloc, h2.1, fun m => h2.2.2.2.2.2 (8, 4) rfl (by decide) m⟩

/-- C7: every retrieval of the input/output channel returns the live channel
with its cursor reset to 0 (host side and module side), so each retrieval
starts a fresh message: retrieving the input channel twice and writing one
byte after each retrieval leaves the second write's byte at offset 0, while
the storage bytes beyond the second message's extent are exactly those left by
the first write. -/
theorem claim7_resetOnRetrieval (c : Channel) (st : InteropState)
    (h : 1 ≤ c.storage.length) :
    (hostGetInput c).offset = 0
    ∧ (hostGetInput c).storage = c.storage
    ∧ (hostGetOutput c).offset = 0
    ∧ (hostGetOutput c).storage = c.storage
    ∧ (zigGetInput st).1.offset = 0
    ∧ (zigGetOutput st).1.offset = 0
    ∧ (Writer.writeUint8 (hostGetInput (Writer.writeUint8 (hostGetInput c) 7).2) 9).1
        = some ()
    ∧ (Writer.writeUint8 (hostGetInput (Writer.writeUint8 (hostGetInput c) 7).2) 9).2.storage.getD 0 0
        = 9
    ∧ (Writer.writeUint8 (hostGetInput (Writer.writeUint8 (hostGetInput c) 7).2) 9).2.offset
        = 1
    ∧ (∀ j, 1 ≤ j →
        (Writer.writeUint8 (hostGetInput (Writer.writeUint8 (hostGetInput c) 7).2) 9).2.storage.getD j 0
          = (Writer.writeUint8 (hostGetInput c) 7).2.storage.getD j 0) := by
  have h1 : ¬ (c.storage.length < 0 + 1) := by omega
  have e1 : Writer.writeUint8 (hostGetInput c) 7
      = (some (), ⟨0 + 1, c.storage.set 0 (7 % 256)⟩) := by
    show Writer.writeUint8 ⟨0, c.storage⟩ 7 = _
    rw [writeUint8_eq, if_neg h1]
  have h2 : ¬ ((c.storage.set 0 (7 % 256)).length < 0 + 1) := by
    rw [List.length_set]; omega
  have e2 : Writer.writeUint8 (hostGetInput (Writer.writeUint8 (hostGetInput c) 7).2) 9
      = (some (), ⟨0 + 1, (c.storage.set 0 (7 % 256)).set 0 (9 % 256)⟩) := by
    rw [e1]
    show Writer.writeUint8 ⟨0, c.storage.set 0 (7 % 256)⟩ 9 = _
    rw [writeUint8_eq, if_neg h2]
  refine ⟨rfl, rfl, rfl, rfl, rfl, rfl, ?_, ?_, ?_, ?_⟩
  · rw [e2]
  · rw [e2]
    show ((c.storage.set 0 (7 % 256)).set 0 (9 % 256)).getD 0 0 = 9
    rw [getD_set_self _ _ _ (by rw [List.length_set]; omega)]
  · rw [e2]
  · intro j hj
    rw [e2, e1]
    show ((c.storage.set 0 (7 % 256)).set 0 (9 % 256)).getD j 0
        = (c.storage.set 0 (7 % 256)).getD j 0
    rw [getD_set_ne _ _ _ _ (by omega)]

/-- C7 witness: on a 4-byte channel at cursor 3, retrieving twice and writing
7 then 9 leaves 9 at offset 0. -/
theorem claim7_resetOnRetrieval_witness :
    (Writer.writeUint8 (hostGetInput
      (Writer.writeUint8 (hostGetInput ⟨3, [0, 0, 0, 0]⟩) 7).2) 9).2.storage.getD 0 0 = 9 :=
  (claim7_resetOnRetrieval ⟨3, [0, 0, 0, 0]⟩
    ⟨none, none, zigReaderFrom 0, zigWriterFrom 0, ⟨[], 8⟩⟩
    (by decide)).2.2.2.2.2.2.2.1

/-! ### C8 — bootstrap memory sizing/growth and view caching -/

/-- `requiredBytes` computed by `createInstance` (interop.ts): the maximum of
the four region extents `inputPtr + inputSize`, `outputPtr + outputSize`,
`logPtr + MAX_LOG_SIZE`, `errPtr + MAX_ERROR_SIZE`. -/
def requiredBytes (inputPtr inputSize outputPtr outputSize logPtr maxLog errPtr maxErr :
    Nat) : Nat :=
  max (max (max (inputPtr + inputSize) (outputPtr + outputSize)) (logPtr + maxLog))
    (errPtr + maxErr)

/-- Memory growth at bootstrap (interop.ts `createInstance`): when the current
size is below the requirement, grow by `Math.ceil(delta / PAGE_SIZE)` pages.
`pageSize` stands for the PAGE_SIZE constant (constants.ts is not under src/;
a wasm page is 64 KiB, witness instantiated at 65536). -/
def grownSize (memSize required pageSize : Nat) : Nat :=
  if memSize < required then
    let delta := required - memSize
    let additionalPages := (delta + pageSize - 1) / pageSize
    if 0 < additionalPages then memSize + additionalPages * pageSize else memSize
  else memSize

/-- The state of one `createView` thunk (interop.ts): the buffer identity it
last built for, the identity of the cached view, and a fresh-identity source
(each rebuild constructs a new object). -/
structure ViewCache where
  cachedBuf : Option Nat
  cachedView : Nat
  counter : Nat
  deriving DecidableEq, Repr

/-- One invocation of the thunk returned by `createView` (interop.ts): rebuild
(drawing a fresh view identity) exactly when nothing is cached yet or the
memory's current buffer identity differs from the cached one; otherwise return
the cached view unchanged. -/
def createViewGet (st : ViewCache) (bufId : Nat) : Nat × ViewCache :=
  if st.cachedBuf = some bufId then (st.cachedView, st)
  else (st.counter, ⟨some bufId, st.counter, st.counter + 1⟩)

/-- The cached view's identity was drawn before the fresh-identity source. -/
def ViewCacheWF (st : ViewCache) : Prop :=
  st.cachedBuf ≠ none → st.cachedView < st.counter

theorem grownSize_ge (memSize required pageSize : Nat) (hp : 0 < pageSize) :
    required ≤ grownSize memSize required pageSize := by
  unfold grownSize
  by_cases hlt : memSize < required
  · rw [if_pos hlt]
    have hdm := Nat.div_add_mod (required - memSize + pageSize - 1) pageSize
    have hml := Nat.mod_lt (required - memSize + pageSize - 1) hp
    by_cases hpg : 0 < (required - memSize + pageSize - 1) / pageSize
    · rw [if_pos hpg]
      have : pageSize * ((required - memSize + pageSize - 1) / pageSize)
          ≥ required - memSize := by omega
      have hcomm := Nat.mul_comm pageSize ((required - memSize + pageSize - 1) / pageSize)
      omega
    · rw [if_neg hpg]
      have hd0 : (required - memSize + pageSize - 1) / pageSize = 0 :=
        Nat.eq_zero_of_not_pos hpg
      rw [hd0, Nat.mul_zero, Nat.zero_add] at hdm
      omega
  · rw [if_neg hlt]
    omega

/-- C8: at bootstrap the required memory size is
`max(inputAddr+inputSize, outputAddr+outputSize, logAddr+MAX_LOG_SIZE,
errorAddr+MAX_ERROR_SIZE)`; when current memory is smaller it is grown by
exactly the ceiling number of pages covering the gap — and the result covers
all four regions — and otherwise left alone.  Cached typed views are rebuilt
lazily keyed on buffer identity: retrieving again with an unchanged buffer
returns the identical cached view (and identical cache state), while a view
obtained after the buffer identity changes differs in identity from the one
obtained before, and well-formedness of the cache is preserved. -/
theorem claim8_bootstrapMemory (inputPtr inputSize outputPtr outputSize logPtr maxLog
    errPtr maxErr memSize pageSize : Nat) (hp : 0 < pageSize) :
    (inputPtr + inputSize
      ≤ grownSize memSize (requiredBytes inputPtr inputSize outputPtr outputSize
          logPtr maxLog errPtr maxErr) pageSize
    ∧ outputPtr + outputSize
      ≤ grownSize memSize (requiredBytes inputPtr inputSize outputPtr outputSize
          logPtr maxLog errPtr maxErr) pageSize
    ∧ logPtr + maxLog
      ≤ grownSize memSize (requiredBytes inputPtr inputSize outputPtr outputSize
          logPtr maxLog errPtr maxErr) pageSize
    ∧ errPtr + maxErr
      ≤ grownSize memSize (requiredBytes inputPtr inputSize outputPtr outputSize
          logPtr maxLog errPtr maxErr) pageSize)
    ∧ (∀ req, memSize < req →
        grownSize memSize req pageSize
          = memSize + ((req - memSize + pageSize - 1) / pageSize) * pageSize)
    ∧ (∀ req, req ≤ memSize → grownSize memSize req pageSize = memSize)
    ∧ (∀ st b, createViewGet (createViewGet st b).2 b = createViewGet st b)
    ∧ (∀ st b b', ViewCacheWF st → b ≠ b' →
        (createViewGet (createViewGet st b).2 b').1 ≠ (createViewGet st b).1)
    ∧ (∀ st b, ViewCacheWF st → ViewCacheWF (createViewGet st b).2) := by
  have hge := grownSize_ge memSize
    (requiredBytes inputPtr inputSize outputPtr outputSize logPtr maxLog errPtr maxErr)
    pageSize hp
  refine ⟨⟨?_, ?_, ?_, ?_⟩, ?_, ?_, ?_, ?_, ?_⟩
  · have : inputPtr + inputSize
        ≤ requiredBytes inputPtr inputSize outputPtr outputSize logPtr maxLog
            errPtr maxErr := by
      unfold requiredBytes; omega
    omega
  · have : outputPtr + outputSize
        ≤ requiredBytes inputPtr inputSize outputPtr outputSize logPtr maxLog
            errPtr maxErr := by
      unfold requiredBytes; omega
    omega
  · have : logPtr + maxLog
        ≤ requiredBytes inputPtr inputSize outputPtr outputSize logPtr maxLog
            errPtr maxErr := by
      unfold requiredBytes; omega
    omega
  · have : errPtr + maxErr
        ≤ requiredBytes inputPtr inputSize outputPtr outputSize logPtr maxLog
            errPtr maxErr := by
      unfold requiredBytes; omega
    omega
  · intro req hlt
    unfold grownSize
    rw [if_pos hlt]
    have hone : 0 < (req - memSize + pageSize - 1) / pageSize :=
      Nat.div_pos (by omega) hp
    rw [if_pos hone]
  · intro req hle
    unfold grownSize
    rw [if_neg (by omega)]
  · intro st b
    by_cases hhit : st.cachedBuf = some b
    · simp [createViewGet, hhit]
    · simp [createViewGet, hhit]
  · intro st b b' hwf hne
    by_cases hhit : st.cachedBuf = some b
    · have hw := hwf (by rw [hhit]; exact Option.some_ne_none b)
      have e1 : createViewGet st b = (st.cachedView, st) := by
        unfold createViewGet; rw [if_pos hhit]
      rw [e1]
      show (createViewGet st b').1 ≠ st.cachedView
      have e2 : createViewGet st b'
          = (st.counter, ⟨some b', st.counter, st.counter + 1⟩) := by
        unfold createViewGet; rw [if_neg (by rw [hhit]; simp [hne])]
      rw [e2]
      show st.counter ≠ st.cachedView
      omega
    · have e1 : createViewGet st b = (st.counter, ⟨some b, st.counter, st.counter + 1⟩) := by
        unfold createViewGet; rw [if_neg hhit]
      rw [e1]
      show (createViewGet ⟨some b, st.counter, st.counter + 1⟩ b').1 ≠ st.counter
      have e2 : createViewGet ⟨some b, st.counter, st.counter + 1⟩ b'
          = (st.counter + 1, ⟨some b', st.counter + 1, st.counter + 1 + 1⟩) := by
        unfold createViewGet
        rw [if_neg (by simp [hne])]
      rw [e2]
      show st.counter + 1 ≠ st.counter
      omega
  · intro st b hwf
    by_cases hhit : st.cachedBuf = some b
    · have e1 : createViewGet st b = (st.cachedView, st) := by
        unfold createViewGet; rw [if_pos hhit]
      rw [e1]
      exact hwf
    · have e1 : createViewGet st b = (st.counter, ⟨some b, st.counter, st.counter + 1⟩) := by
        unfold createViewGet; rw [if_neg hhit]
      rw [e1]
      intro _
      show st.counter < st.counter + 1
      omega

/-- C8 witness: with a 1-page (65536-byte) memory and regions reaching 120000
bytes, the grown size covers the output region. -/
theorem claim8_bootstrapMemory_witness :
    70000 + 1024 ≤ grownSize 65536 (requiredBytes 70000 1024 100000 20000 0 2048 256 2048)
      65536 :=
  (claim8_bootstrapMemory 70000 1024 100000 20000 0 2048 256 2048 65536 65536
    (by norm_num)).1.1

/-! ### C9 — import-set merging -/

/-- A value bound in a WebAssembly import namespace, distinguished up to
identity: the host-installed shared memory, the host-installed notification
hook, or any other caller-supplied binding. -/
inductive ImportVal where
  | memory (id : Nat)
  | hostLogFn (id : Nat)
  | other (id : Nat)
  deriving DecidableEq, Repr

/-- The `env` namespace built by `createInstance` (interop.ts):
`{ ...(baseImports.env ?? {}), memory, hostLog }` — caller entries spread
first, the host's `memory` and `hostLog` keys spread last (overriding those
two keys when the caller also supplied them). -/
def mkEnv (base : String → Option (String → Option ImportVal)) (mem hl : ImportVal) :
    String → Option ImportVal :=
  fun k =>
    if k = "memory" then some mem
    else if k = "hostLog" then some hl
    else
      match base ("env") with
      | some envObj => envObj k
      | none => none

/-- `finalImports = { ...baseImports, env }` (interop.ts): the merged env
namespace replaces the caller's `env` key; every other namespace is the
caller's binding unchanged. -/
def finalImports (base : String → Option (String → Option ImportVal))
    (mem hl : ImportVal) : String → Option (String → Option ImportVal) :=
  fun ns => if ns = "env" then some (mkEnv base mem hl) else base ns

/-- A concrete caller env supplying its own `hostLog` binding plus an
unrelated `foo` binding. -/
def callerEnvCE : String → Option ImportVal :=
  fun k =>
    if k = "hostLog" then some (ImportVal.other 42)
    else if k = "foo" then some (ImportVal.other 7)
    else none

/-- A concrete caller import set whose only namespace is that env. -/
def callerImportsCE : String → Option (String → Option ImportVal) :=
  fun ns => if ns = "env" then some callerEnvCE else none

/-- C9 counterexample: the caller-supplied binding `env.hostLog = other 42` is
not present unchanged in the final import set — the host's spread of `memory`
and `hostLog` comes after the caller's env entries and overwrites those two
keys, so the claim that every caller binding survives unchanged fails. -/
theorem claim9_counterexample :
    callerImportsCE ("env") = some callerEnvCE
    ∧ callerEnvCE ("hostLog") = some (ImportVal.other 42)
    ∧ finalImports callerImportsCE (ImportVal.memory 0) (ImportVal.hostLogFn 1) ("env")
      = some (mkEnv callerImportsCE (ImportVal.memory 0) (ImportVal.hostLogFn 1))
    ∧ mkEnv callerImportsCE (ImportVal.memory 0) (ImportVal.hostLogFn 1) ("hostLog")
      = some (ImportVal.hostLogFn 1)
    ∧ some (ImportVal.hostLogFn 1) ≠ some (ImportVal.other 42) := by
  refine ⟨rfl, by decide, rfl, by decide, by decide⟩

/-- C9 (amended): `createInstance` installs the host notification hook
(`hostLog`) and the shared memory into the `env` namespace of the final import
set, and merges with the caller-supplied imports without clobbering them
except for those two reserved keys: every caller namespace other than `env` is
passed through unchanged, and every caller `env` entry whose key is neither
`memory` nor `hostLog` is present unchanged in the final `env`. -/
theorem claim9_importMerging_amended
    (base : String → Option (String → Option ImportVal)) (mem hl : ImportVal) :
    finalImports base mem hl ("env") = some (mkEnv base mem hl)
    ∧ mkEnv base mem hl ("memory") = some mem
    ∧ mkEnv base mem hl ("hostLog") = some hl
    ∧ (∀ ns, ns ≠ "env" → finalImports base mem hl ns = base ns)
    ∧ (∀ envObj k, base ("env") = some envObj → k ≠ "memory" → k ≠ "hostLog" →
        mkEnv base mem hl k = envObj k) := by
  refine ⟨rfl, by simp [mkEnv], by simp [mkEnv], ?_, ?_⟩
  · intro ns hns
    simp [finalImports, hns]
  · intro envObj k hbase hk1 hk2
    simp [mkEnv, hbase, hk1, hk2]

/-- C9 witness: the caller's unrelated `env.foo` binding survives the merge
unchanged. -/
theorem claim9_importMerging_amended_witness :
    mkEnv callerImportsCE (ImportVal.memory 0) (ImportVal.hostLogFn 1) ("foo")
      = some (ImportVal.other 7) := by
  have h := (claim9_importMerging_amended callerImportsCE
    (ImportVal.memory 0) (ImportVal.hostLogFn 1)).2.2.2.2 callerEnvCE ("foo")
    rfl (by decide) (by decide)
  rw [h]
  decide
